import Mathlib

/-!
# Verification of the react-native-html-renderer core

Shallow embedding of the repository's parser, style resolver, style parser,
plugin registry and content cache, with theorems settling the frozen claims.

Conventions of the embedding:
* JS numbers are modelled as exact rationals (`ℚ`); `NaN` is an explicit
  constructor of the style-value type.
* JS objects used as string-keyed records are modelled as association lists
  (`List (String × α)`) whose assignment (`objSet`) updates an existing key in
  place and appends a new key, mirroring JS property-assignment order; lookup
  is first-match (`List.lookup`), which agrees with JS lookup because `objSet`
  keeps keys unique.
* JS object identity (reference equality) is modelled by an explicit address
  (`addr`) carried by every AST node; a fresh address is drawn from a counter
  at each allocation, mirroring `new`/object-literal allocation.
* Strings are Lean `String`s; the JS whitespace predicates and trimming are
  re-implemented on the character list so that they can be reasoned about.
-/

namespace HtmlRenderer

/-! ## Style values and JS-object model (src/styles/styleParser.ts) -/

/-- A value stored in a React Native style object: a JS number (exact
rational), a string, or the JS `NaN` produced by a failed `parseFloat`. -/
inductive Value where
  | num (q : ℚ)
  | str (s : String)
  | nan
deriving DecidableEq, Repr

/-- A style object (`RNStyle`): string-keyed record modelled as an
association list in property-insertion order. -/
abbrev Style := List (String × Value)

/-- JS property assignment `o[k] = v`: update in place if the key exists,
otherwise append. Keeps key order and uniqueness like a JS object (which can
never hold a duplicate key). -/
def objSet {α : Type} (o : List (String × α)) (k : String) (v : α) :
    List (String × α) :=
  match o with
  | [] => [(k, v)]
  | kv :: rest => if kv.1 = k then (k, v) :: rest else kv :: objSet rest k v

/-- `Object.assign(base, extra)`: assign every property of `extra` onto
`base`, in `extra`'s property order. -/
def objAssign {α : Type} (base extra : List (String × α)) :
    List (String × α) :=
  extra.foldl (fun acc kv => objSet acc kv.1 kv.2) base

/-- `mergeStyles(...styles)`: `Object.assign({}, ...styles.filter(Boolean))`.
`none` models an `undefined` argument removed by `filter(Boolean)`. -/
def mergeStyles (styles : List (Option Style)) : Style :=
  (styles.filterMap id).foldl objAssign []

/-- `isEmptyStyle` from src/styles/styleParser.ts. -/
def isEmptyStyle (style : Option Style) : Bool :=
  match style with
  | none => true
  | some s => s.length = 0

/-! ### Character/string helpers modelling the JS string operations -/

/-- JS whitespace test for a character (covers the characters relevant to
`\s` on the inputs we model). -/
def isWsChar (c : Char) : Bool := c.isWhitespace

/-- `String.prototype.trim()` modelled on the character list. -/
def jsTrim (s : String) : String :=
  String.mk (((s.data.dropWhile isWsChar).reverse.dropWhile isWsChar).reverse)

/-- `String.prototype.trimStart()`. -/
def jsTrimStart (s : String) : String :=
  String.mk (s.data.dropWhile isWsChar)

/-- `String.prototype.trimEnd()`. -/
def jsTrimEnd (s : String) : String :=
  String.mk ((s.data.reverse.dropWhile isWsChar).reverse)

/-- Test of the regex `/^\s*$/` (`isWhitespaceOnly` in src/parser/parser.ts). -/
def isWhitespaceOnly (s : String) : Bool :=
  s.data.all isWsChar

/-- `normalizeText` (src/parser/parser.ts): `text.replace(/\s+/g, ' ')` —
collapse every whitespace run to a single space. -/
def collapseWs : List Char → Bool → List Char
  | [], _ => []
  | c :: rest, prevWs =>
    if isWsChar c then
      if prevWs then collapseWs rest true else ' ' :: collapseWs rest true
    else
      c :: collapseWs rest false

def normalizeText (text : String) : String :=
  String.mk (collapseWs text.data false)

/-- `s.split(sep)` for a single-character separator (keeps empty segments). -/
def jsSplitCharGo (sep : Char) : List Char → List Char → List String
  | [], acc => [String.mk acc.reverse]
  | c :: rest, acc =>
    if c = sep then String.mk acc.reverse :: jsSplitCharGo sep rest []
    else jsSplitCharGo sep rest (c :: acc)

def jsSplitChar (s : String) (sep : Char) : List String :=
  jsSplitCharGo sep s.data []

/-- Split at every character satisfying `p` (keeps empty segments); used with
a whitespace class and a `filter(Boolean)` this models `split(/\s+/)`. -/
def jsSplitPredGo (p : Char → Bool) : List Char → List Char → List String
  | [], acc => [String.mk acc.reverse]
  | c :: rest, acc =>
    if p c then String.mk acc.reverse :: jsSplitPredGo p rest []
    else jsSplitPredGo p rest (c :: acc)

def jsSplitPred (s : String) (p : Char → Bool) : List String :=
  jsSplitPredGo p s.data []

/-- `String.prototype.toLowerCase()` (character-wise). -/
def jsToLower (s : String) : String :=
  String.mk (s.data.map Char.toLower)

/-- `Array.prototype.join(sep)`. -/
def jsJoin (sep : String) : List String → String
  | [] => ""
  | [x] => x
  | x :: rest => x ++ sep ++ jsJoin sep rest

/-! ## CSS property maps (src/styles/styleParser.ts) -/

/-- `CSS_TO_RN_MAP`: CSS property name to React Native property name. -/
def CSS_TO_RN_MAP : List (String × String) :=
  [("display", "display"), ("flex", "flex"),
   ("flex-direction", "flexDirection"), ("flex-wrap", "flexWrap"),
   ("flex-grow", "flexGrow"), ("flex-shrink", "flexShrink"),
   ("flex-basis", "flexBasis"), ("justify-content", "justifyContent"),
   ("align-items", "alignItems"), ("align-self", "alignSelf"),
   ("align-content", "alignContent"),
   ("width", "width"), ("height", "height"), ("min-width", "minWidth"),
   ("max-width", "maxWidth"), ("min-height", "minHeight"),
   ("max-height", "maxHeight"),
   ("position", "position"), ("top", "top"), ("right", "right"),
   ("bottom", "bottom"), ("left", "left"), ("z-index", "zIndex"),
   ("margin", "margin"), ("margin-top", "marginTop"),
   ("margin-right", "marginRight"), ("margin-bottom", "marginBottom"),
   ("margin-left", "marginLeft"), ("margin-horizontal", "marginHorizontal"),
   ("margin-vertical", "marginVertical"),
   ("padding", "padding"), ("padding-top", "paddingTop"),
   ("padding-right", "paddingRight"), ("padding-bottom", "paddingBottom"),
   ("padding-left", "paddingLeft"),
   ("padding-horizontal", "paddingHorizontal"),
   ("padding-vertical", "paddingVertical"),
   ("border", "border"), ("border-width", "borderWidth"),
   ("border-top-width", "borderTopWidth"),
   ("border-right-width", "borderRightWidth"),
   ("border-bottom-width", "borderBottomWidth"),
   ("border-left-width", "borderLeftWidth"),
   ("border-color", "borderColor"), ("border-top-color", "borderTopColor"),
   ("border-right-color", "borderRightColor"),
   ("border-bottom-color", "borderBottomColor"),
   ("border-left-color", "borderLeftColor"),
   ("border-radius", "borderRadius"),
   ("border-top-left-radius", "borderTopLeftRadius"),
   ("border-top-right-radius", "borderTopRightRadius"),
   ("border-bottom-left-radius", "borderBottomLeftRadius"),
   ("border-bottom-right-radius", "borderBottomRightRadius"),
   ("border-style", "borderStyle"),
   ("background-color", "backgroundColor"),
   ("background", "backgroundColor"), ("opacity", "opacity"),
   ("color", "color"), ("font-size", "fontSize"),
   ("font-family", "fontFamily"), ("font-weight", "fontWeight"),
   ("font-style", "fontStyle"), ("line-height", "lineHeight"),
   ("text-align", "textAlign"), ("text-decoration", "textDecorationLine"),
   ("text-decoration-line", "textDecorationLine"),
   ("text-decoration-style", "textDecorationStyle"),
   ("text-decoration-color", "textDecorationColor"),
   ("text-transform", "textTransform"),
   ("letter-spacing", "letterSpacing"), ("text-shadow", "textShadowColor"),
   ("word-spacing", "letterSpacing"), ("white-space", "whiteSpace"),
   ("text-overflow", "textOverflow"),
   ("box-shadow", "shadowColor"), ("shadow-color", "shadowColor"),
   ("shadow-offset", "shadowOffset"), ("shadow-opacity", "shadowOpacity"),
   ("shadow-radius", "shadowRadius"),
   ("overflow", "overflow"), ("aspect-ratio", "aspectRatio")]

/-- `FONT_WEIGHT_MAP`. -/
def FONT_WEIGHT_MAP : List (String × String) :=
  [("normal", "normal"), ("bold", "bold"),
   ("100", "100"), ("200", "200"), ("300", "300"), ("400", "400"),
   ("500", "500"), ("600", "600"), ("700", "700"), ("800", "800"),
   ("900", "900"), ("lighter", "300"), ("bolder", "700")]

/-! ### Numeric parsing -/

/-- Digit-or-dot character class `[\d.]` of the numeric-value regex. -/
def isDigitOrDot (c : Char) : Bool := c.isDigit || c = '.'

/-- The unit suffixes of the regex `(px|em|rem|%|pt|vh|vw)`. -/
def cssUnits : List String := ["px", "em", "rem", "%", "pt", "vh", "vw"]

/-- Model of `trimmed.match(/^(-?[\d.]+)(px|em|rem|%|pt|vh|vw)?$/)`:
returns the numeric group (sign included) and the optional unit group.
The numeric class and the unit alphabet are disjoint, so the greedy match is
exactly: maximal leading run of `[\d.]` after an optional sign, with the
remainder having to be one of the unit strings or empty. -/
def numericMatchBody (sign : String) (body : List Char) :
    Option (String × Option String) :=
  let numPart := body.takeWhile isDigitOrDot
  let rest := body.dropWhile isDigitOrDot
  if numPart.isEmpty then none
  else if rest.isEmpty then some (sign ++ String.mk numPart, none)
  else if cssUnits.contains (String.mk rest) then
    some (sign ++ String.mk numPart, some (String.mk rest))
  else none

def numericMatch (s : String) : Option (String × Option String) :=
  match s.data with
  | '-' :: rest => numericMatchBody "-" rest
  | cs => numericMatchBody "" cs

/-- Value of a digit list read as a decimal natural number. -/
def digitsToNat (ds : List Char) : Nat :=
  ds.foldl (fun acc c => acc * 10 + (c.toNat - '0'.toNat)) 0

/-- Model of JS `parseFloat` restricted to the shapes produced by
`numericMatch` (optional sign, then digit/dot characters): parses the longest
valid prefix `-?digits(.digits)?`; `none` models `NaN`. -/
def parseFloatQ (s : String) : Option ℚ :=
  let (neg, body) :=
    match s.data with
    | '-' :: rest => (true, rest)
    | cs => (false, cs)
  let intPart := body.takeWhile Char.isDigit
  let afterInt := body.dropWhile Char.isDigit
  let fracPart :=
    match afterInt with
    | '.' :: rest => rest.takeWhile Char.isDigit
    | _ => []
  if intPart.isEmpty && fracPart.isEmpty then none
  else
    let mag : ℚ :=
      if fracPart.isEmpty then (digitsToNat intPart : ℚ)
      else (digitsToNat intPart : ℚ) +
        (digitsToNat fracPart : ℚ) / ((10 : ℚ) ^ fracPart.length)
    some (if neg then -mag else mag)

/-- Decimal digits of a natural number (most significant first). -/
def natToDigits (n : Nat) : List Char :=
  (Nat.toDigits 10 n)

/-- Model of JS number-to-string (template literal interpolation) for the
finite-decimal rationals this code produces: shortest decimal expansion,
no trailing zeros, no trailing dot. Falls back to `num/den` notation for
non-decimal rationals (unreachable from `parseFloatQ` outputs). -/
def qToString (q : ℚ) : String :=
  let sign := if q < 0 then "-" else ""
  let n := q.num.natAbs
  let d := q.den
  match (List.range 40).find? (fun k => (10 : Nat) ^ k % d = 0) with
  | some k =>
    let scaled := n * ((10 : Nat) ^ k / d)
    if k = 0 then sign ++ String.mk (natToDigits scaled)
    else
      let ds := natToDigits scaled
      let padded := List.replicate (k + 1 - ds.length) '0' ++ ds
      let intDs := padded.take (padded.length - k)
      let fracDs := (padded.drop (padded.length - k)).reverse.dropWhile
        (fun c => c = '0') |>.reverse
      if fracDs.isEmpty then sign ++ String.mk intDs
      else sign ++ String.mk intDs ++ "." ++ String.mk fracDs
  | none => sign ++ String.mk (natToDigits n) ++ "/" ++ String.mk (natToDigits d)

/-! ### parseValue and friends -/

/-- `haystack.includes(needle)` on character lists. -/
def strIncludes (hay needle : List Char) : Bool :=
  match hay with
  | [] => needle.isEmpty
  | _ :: t => needle.isPrefixOf hay || strIncludes t needle

/-- `isColorProperty`: some color property name is a lowercase substring of
the lowercased property. -/
def isColorProperty (property : String) : Bool :=
  ["color", "backgroundColor", "borderColor", "shadowColor"].any
    (fun p => strIncludes (jsToLower property).data (jsToLower p).data)

/-- `parseColor`: colors pass through unchanged. -/
def parseColor (value : String) : String := value

/-- `mapTextDecoration`: map a CSS text-decoration value onto the supported
set; `none` short-circuits, unsupported keywords are dropped, an empty result
falls back to `"none"`. -/
def mapTextDecorationGo : List String → List String → String
  | [], mapped =>
    let j := jsJoin " " mapped.reverse
    if j = "" then "none" else j
  | dec :: rest, mapped =>
    if dec = "underline" then mapTextDecorationGo rest ("underline" :: mapped)
    else if dec = "line-through" then
      mapTextDecorationGo rest ("line-through" :: mapped)
    else if dec = "none" then "none"
    else mapTextDecorationGo rest mapped

def mapTextDecoration (value : String) : String :=
  mapTextDecorationGo (jsSplitChar value ' ') []

/-- `parseValue(value, property)` from src/styles/styleParser.ts; `none`
models the JS `undefined` return. -/
def parseValue (value : String) (property : String) : Option Value :=
  let trimmed := jsTrim value
  if trimmed = "inherit" || trimmed = "initial" || trimmed = "unset" then
    none
  else if property = "fontWeight" || property = "font-weight" then
    some (.str ((FONT_WEIGHT_MAP.lookup trimmed).getD trimmed))
  else
    match numericMatch trimmed with
    | some (numStr, unit) =>
      match parseFloatQ numStr with
      | none => some .nan
      | some num =>
        match unit with
        | some "px" => some (.num num)
        | some "em" => some (.num (num * 16))
        | some "rem" => some (.num (num * 16))
        | some "pt" => some (.num (num * (1333 / 1000 : ℚ)))
        | some "%" => some (.str (qToString num ++ "%"))
        | some "vh" => some (.str (qToString num ++ "%"))
        | some "vw" => some (.str (qToString num ++ "%"))
        | _ => some (.num num)
    | none =>
      if isColorProperty property then some (.str (parseColor trimmed))
      else if property = "textDecorationLine" ||
          property = "text-decoration" then
        some (.str (mapTextDecoration trimmed))
      else some (.str trimmed)

/-- Index of the first `:` in a declaration (`indexOf(':')`). -/
def colonIndex (cs : List Char) : Option Nat :=
  cs.findIdx? (fun c => c = ':')

/-- `parseInlineStyle(cssString)`: split on `;`, split each declaration at
its first `:`, map the property through `CSS_TO_RN_MAP`, parse the value;
unsupported properties and `undefined` values are skipped. The `Option`
argument models `string | undefined`. -/
def parseInlineStyle (cssString : Option String) : Style :=
  match cssString with
  | none => []
  | some css =>
    if jsTrim css = "" then []
    else
      let declarations := (jsSplitChar css ';').filter (fun d => d ≠ "")
      declarations.foldl
        (fun style declaration =>
          match colonIndex declaration.data with
          | none => style
          | some idx =>
            let property :=
              jsToLower (jsTrim (String.mk (declaration.data.take idx)))
            let value := jsTrim (String.mk (declaration.data.drop (idx + 1)))
            if property = "" || value = "" then style
            else
              match CSS_TO_RN_MAP.lookup property with
              | none => style
              | some rnProperty =>
                match parseValue value rnProperty with
                | none => style
                | some v => objSet style rnProperty v)
        []

/-! ## Default tag styles (src/styles/defaultStyles.ts) -/

/-- Shorthand constructors for table entries. -/
def vn (k : String) (q : ℚ) : String × Value := (k, .num q)

def vs (k : String) (s : String) : String × Value := (k, .str s)

/-- `defaultTagStyles`: built-in per-tag default styles. -/
def defaultTagStyles : List (String × Style) :=
  [("div", [vs "flexDirection" "column"]),
   ("p", [vn "marginVertical" 12]),
   ("blockquote",
    [vn "marginVertical" 16, vn "marginHorizontal" 0, vn "paddingLeft" 16,
     vn "borderLeftWidth" 4, vs "borderLeftColor" "#e0e0e0",
     vs "fontStyle" "italic", vs "color" "#666666"]),
   ("article", [vs "flexDirection" "column"]),
   ("section", [vs "flexDirection" "column"]),
   ("header", [vs "flexDirection" "column"]),
   ("footer", [vs "flexDirection" "column"]),
   ("main", [vs "flexDirection" "column"]),
   ("aside", [vs "flexDirection" "column"]),
   ("nav", [vs "flexDirection" "column"]),
   ("h1", [vn "fontSize" 32, vs "fontWeight" "bold", vn "marginTop" 24,
           vn "marginBottom" 16, vn "lineHeight" 40]),
   ("h2", [vn "fontSize" 28, vs "fontWeight" "bold", vn "marginTop" 20,
           vn "marginBottom" 14, vn "lineHeight" 36]),
   ("h3", [vn "fontSize" 24, vs "fontWeight" "bold", vn "marginTop" 18,
           vn "marginBottom" 12, vn "lineHeight" 32]),
   ("h4", [vn "fontSize" 20, vs "fontWeight" "bold", vn "marginTop" 16,
           vn "marginBottom" 10, vn "lineHeight" 28]),
   ("h5", [vn "fontSize" 18, vs "fontWeight" "bold", vn "marginTop" 14,
           vn "marginBottom" 8, vn "lineHeight" 26]),
   ("h6", [vn "fontSize" 16, vs "fontWeight" "bold", vn "marginTop" 12,
           vn "marginBottom" 8, vn "lineHeight" 24]),
   ("span", []),
   ("strong", [vs "fontWeight" "bold"]),
   ("b", [vs "fontWeight" "bold"]),
   ("em", [vs "fontStyle" "italic"]),
   ("i", [vs "fontStyle" "italic"]),
   ("u", [vs "textDecorationLine" "underline"]),
   ("s", [vs "textDecorationLine" "line-through"]),
   ("strike", [vs "textDecorationLine" "line-through"]),
   ("del", [vs "textDecorationLine" "line-through", vs "color" "#888888"]),
   ("ins", [vs "textDecorationLine" "underline", vs "color" "#2e7d32"]),
   ("mark", [vs "backgroundColor" "#ffeb3b", vs "color" "#1a1a1a"]),
   ("small", [vn "fontSize" 12]),
   ("sub", [vn "fontSize" 12]),
   ("sup", [vn "fontSize" 12]),
   ("ul", [vn "marginVertical" 12, vn "paddingLeft" 20]),
   ("ol", [vn "marginVertical" 12, vn "paddingLeft" 20]),
   ("li", [vn "marginVertical" 4, vs "flexDirection" "row"]),
   ("a", [vs "color" "#1976d2", vs "textDecorationLine" "underline"]),
   ("img", []),
   ("hr", [vn "height" 1, vs "backgroundColor" "#e0e0e0",
           vn "marginVertical" 16, vn "borderWidth" 0]),
   ("table", [vn "borderWidth" 1, vs "borderColor" "#e0e0e0",
              vn "marginVertical" 12]),
   ("thead", [vs "backgroundColor" "#f5f5f5"]),
   ("tbody", []),
   ("tfoot", [vs "backgroundColor" "#f5f5f5"]),
   ("tr", [vs "flexDirection" "row", vn "borderBottomWidth" 1,
           vs "borderBottomColor" "#e0e0e0"]),
   ("th", [vn "flex" 1, vn "padding" 8, vs "fontWeight" "bold",
           vn "borderRightWidth" 1, vs "borderRightColor" "#e0e0e0",
           vs "textAlign" "center"]),
   ("td", [vn "flex" 1, vn "padding" 8, vn "borderRightWidth" 1,
           vs "borderRightColor" "#e0e0e0"]),
   ("caption", [vs "textAlign" "center", vs "fontStyle" "italic",
                vn "marginBottom" 8]),
   ("pre", [vs "backgroundColor" "#f5f5f5", vn "padding" 12,
            vn "borderRadius" 4, vn "marginVertical" 12,
            vs "overflow" "hidden"]),
   ("code", [vs "fontFamily" "monospace", vn "fontSize" 14,
             vs "backgroundColor" "#f5f5f5", vn "paddingHorizontal" 4,
             vn "paddingVertical" 2, vn "borderRadius" 2]),
   ("figure", [vs "alignItems" "center", vn "marginVertical" 16]),
   ("figcaption", [vn "fontSize" 14, vs "fontStyle" "italic",
                   vs "color" "#666666", vn "marginTop" 8,
                   vs "textAlign" "center"]),
   ("details", [vn "marginVertical" 8]),
   ("summary", [vs "fontWeight" "bold"]),
   ("br", [vn "height" 0])]

/-- `getDefaultTagStyle`: `defaultTagStyles[tagName] || {}`. -/
def getDefaultTagStyle (tagName : String) : Style :=
  (defaultTagStyles.lookup tagName).getD []

/-- `TEXT_ONLY_TAGS`. -/
def TEXT_ONLY_TAGS : List String :=
  ["span", "strong", "b", "em", "i", "u", "s", "strike", "del", "ins",
   "mark", "small", "sub", "sup", "code", "a"]

/-- `isTextOnlyTag`. -/
def isTextOnlyTag (tagName : String) : Bool :=
  TEXT_ONLY_TAGS.contains tagName

/-! ## AST nodes (src/parser/types.ts)

`addr` models the JS object reference (heap identity); `key` models the
`html-node-N` reconciliation key (as the number `N`). `parent` stores the
address of the parent object, modelling the parent back-reference. -/

inductive HtmlNode where
  | text (addr key : Nat) (content : String) (parent : Option Nat)
  | element (addr key : Nat) (tagName : String)
      (attributes : List (String × String))
      (classNames : Option (List String)) (parsedStyles : Option Style)
      (children : List HtmlNode) (parent : Option Nat)
deriving Repr

/-- Address of the node (object identity). -/
def nodeAddr : HtmlNode → Nat
  | .text a _ _ _ => a
  | .element a _ _ _ _ _ _ _ => a

/-- Parent back-reference (address of the parent object, if any). -/
def nodeParent : HtmlNode → Option Nat
  | .text _ _ _ p => p
  | .element _ _ _ _ _ _ _ p => p

/-- Children (empty for text nodes). -/
def nodeChildren : HtmlNode → List HtmlNode
  | .text _ _ _ _ => []
  | .element _ _ _ _ _ _ ch _ => ch

/-- Tag name of an element (`""` for text nodes, which the typed source
never passes where a tag is expected). -/
def nodeTagName : HtmlNode → String
  | .text _ _ _ _ => ""
  | .element _ _ t _ _ _ _ _ => t

/-- Attribute map of an element. -/
def nodeAttributes : HtmlNode → List (String × String)
  | .text _ _ _ _ => []
  | .element _ _ _ attrs _ _ _ _ => attrs

/-- `classNames` of an element. -/
def nodeClassNames : HtmlNode → Option (List String)
  | .text _ _ _ _ => none
  | .element _ _ _ _ cls _ _ _ => cls

/-- `isElementNode`. -/
def isElementNode : HtmlNode → Bool
  | .element _ _ _ _ _ _ _ _ => true
  | _ => false

/-- Whether the node is a text node. -/
def isTextNode : HtmlNode → Bool
  | .text _ _ _ _ => true
  | _ => false

/-- Content of a text node. -/
def nodeContent : HtmlNode → String
  | .text _ _ c _ => c
  | _ => ""

/-! ## Style resolver (src/styles/styleResolver.ts) -/

/-- `StyleResolverConfig` with the defaults destructured in
`createStyleResolver`. -/
structure StyleResolverConfig where
  tagsStyles : List (String × Style) := []
  classesStyles : List (String × Style) := []
  baseTextStyle : Style := []
  useDefaultStyles : Bool := true
  styleTransformer : Option (Style → HtmlNode → Style) := none

/-- `ResolvedStyle`. -/
structure ResolvedStyle where
  style : Style
  isTextElement : Bool
  hasCustomStyles : Bool

/-- `resolveStyle` — the resolver returned by `createStyleResolver(config)`.
Builds the tier list base → default → user tag → user classes → inline,
merges it shallowly, and applies the optional transformer. -/
def resolveStyle (config : StyleResolverConfig) (node : HtmlNode) :
    ResolvedStyle :=
  let isText := isTextOnlyTag (nodeTagName node)
  let styles : List Style := []
  -- 1. Apply base text style for text elements
  let styles :=
    if isText && config.baseTextStyle.length > 0 then
      styles ++ [config.baseTextStyle]
    else styles
  -- 2. Apply default tag styles
  let styles :=
    if config.useDefaultStyles then
      let defaultStyle := getDefaultTagStyle (nodeTagName node)
      if defaultStyle.length > 0 then styles ++ [defaultStyle] else styles
    else styles
  -- 3. Apply user-defined tag styles
  let tagStyle := config.tagsStyles.lookup (nodeTagName node)
  let sh : List Style × Bool :=
    match tagStyle with
    | some ts => (styles ++ [ts], true)
    | none => (styles, false)
  -- 4. Apply class-based styles
  let sh : List Style × Bool :=
    match nodeClassNames node with
    | some classNames =>
      if classNames.length > 0 then
        classNames.foldl
          (fun (acc : List Style × Bool) className =>
            match config.classesStyles.lookup className with
            | some classStyle => (acc.1 ++ [classStyle], true)
            | none => acc) sh
      else sh
    | none => sh
  -- 5. Apply inline styles (highest priority)
  let sh : List Style × Bool :=
    match (nodeAttributes node).lookup "style" with
    | some styleAttr =>
      if styleAttr ≠ "" then
        let inlineStyle := parseInlineStyle (some styleAttr)
        if inlineStyle.length > 0 then (sh.1 ++ [inlineStyle], true)
        else sh
      else sh
    | none => sh
  -- 6. Merge all styles / 7. custom transformer
  let finalStyle := mergeStyles (sh.1.map some)
  let finalStyle :=
    match config.styleTransformer with
    | some f => f finalStyle node
    | none => finalStyle
  ⟨finalStyle, isText, sh.2⟩

mutual

/-- `resolveTreeStyles`'s `processNode`: non-element nodes are returned
unchanged (same object); element nodes are copied (fresh address drawn from
the allocation counter) with `parsedStyles` attached and children processed.
The spread copies all other fields — including the `parent` reference, which
therefore still holds the address of the node's parent in the *input* tree. -/
def processNode (config : StyleResolverConfig) (ctr : Nat) :
    HtmlNode → HtmlNode × Nat
  | .text a k c p => (.text a k c p, ctr)
  | .element a k t attrs cls ps ch par =>
    let style := (resolveStyle config (.element a k t attrs cls ps ch par)).style
    let r := processList config ctr ch
    (.element r.2 k t attrs cls (some style) r.1 par, r.2 + 1)

def processList (config : StyleResolverConfig) (ctr : Nat) :
    List HtmlNode → List HtmlNode × Nat
  | [] => ([], ctr)
  | n :: rest =>
    let r1 := processNode config ctr n
    let r2 := processList config r1.2 rest
    (r1.1 :: r2.1, r2.2)

end

/-- `resolveTreeStyles(nodes, config)`; `ctr` is the allocation counter used
for the addresses of the freshly created copies. -/
def resolveTreeStyles (config : StyleResolverConfig) (nodes : List HtmlNode)
    (ctr : Nat) : List HtmlNode :=
  (processList config ctr nodes).1

/-! ## HTML parser (src/parser/parser.ts)

The tokenizer (`htmlparser2` + `DomHandler`) is an external collaborator: it
either reports an error to the handler callback or delivers a DOM forest.
`DomNode` models that delivered DOM; `parseHtml` takes the tokenizer outcome
as input and performs everything the source performs on it. -/

/-- A node of the DOM delivered by the external tokenizer. -/
inductive DomNode where
  | text (data : String)
  | tag (name : String) (attribs : List (String × String))
      (children : List DomNode)
  | comment (data : String)
deriving Repr

/-- `ParserOptions` (all fields present, as after merging with
`DEFAULT_OPTIONS`). -/
structure ParserOptions where
  decodeEntities : Bool := true
  normalizeWhitespace : Bool := true
  selfClosingTags : List String := ["img", "br", "hr", "input", "meta", "link"]
  rawTextTags : List String := ["script", "style"]

def defaultParserOptions : ParserOptions := {}

/-- `parseAttributes`: lowercase every attribute key. -/
def parseAttributes (attrs : List (String × String)) :
    List (String × String) :=
  attrs.foldl (fun result kv => objSet result (jsToLower kv.1) kv.2) []

/-- `class.split(/\s+/).filter(Boolean)`. -/
def splitClassNames (c : String) : List String :=
  (jsSplitPred c isWsChar).filter (fun s => s ≠ "")

mutual

/-- `convertNode`: convert a tokenizer DOM node into an AST node, threading
the key/allocation counter (`ctr`); `parent` is the address of the enclosing
element's object. Returns `none` for dropped nodes (comments, script/style
elements, whitespace-only text under normalization). -/
def convertNode (node : DomNode) (parent : Option Nat)
    (options : ParserOptions) (ctr : Nat) : Option HtmlNode × Nat :=
  match node with
  | .text data =>
    let content := if options.normalizeWhitespace then normalizeText data
      else data
    if isWhitespaceOnly content && options.normalizeWhitespace then
      (none, ctr)
    else
      (some (.text ctr ctr content parent), ctr + 1)
  | .tag name attribs domChildren =>
    let tagName := jsToLower name
    if tagName = "script" || tagName = "style" then (none, ctr)
    else
      let attrs := parseAttributes attribs
      let classNames :=
        match attrs.lookup "class" with
        | some c => if c ≠ "" then some (splitClassNames c) else none
        | none => none
      let r := convertChildren domChildren (some ctr) options (ctr + 1)
      (some (.element ctr ctr tagName attrs classNames none r.1 parent), r.2)
  | .comment _ => (none, ctr)

/-- The `for (const child of node.children)` loop of `convertNode`: convert
every child, keeping the non-dropped ones. -/
def convertChildren (nodes : List DomNode) (parent : Option Nat)
    (options : ParserOptions) (ctr : Nat) : List HtmlNode × Nat :=
  match nodes with
  | [] => ([], ctr)
  | n :: rest =>
    let r1 := convertNode n parent options ctr
    let r2 := convertChildren rest parent options r1.2
    match r1.1 with
    | some converted => (converted :: r2.1, r2.2)
    | none => (r2.1, r2.2)

end

/-! ### postProcess -/

/-- One step of the merge loop of `postProcess`, on the *reversed* result
accumulator: a text node arriving when the previous (head of the reversed
accumulator) is a text node is merged into it (`prev.content += node.content`);
anything else is pushed. -/
def mergeStep (racc : List HtmlNode) (n : HtmlNode) : List HtmlNode :=
  match n, racc with
  | .text _ _ c _, .text a0 k0 c0 p0 :: rest =>
    .text a0 k0 (c0 ++ c) p0 :: rest
  | _, _ => n :: racc

/-- The merge loop of `postProcess` over a list of (already recursively
processed) nodes. -/
def mergeAdjacentText (nodes : List HtmlNode) : List HtmlNode :=
  (nodes.foldl mergeStep []).reverse

/-- First half of the boundary cleanup of `postProcess`: `trimStart` the
first node if it is a text node, dropping it if it becomes empty. -/
def trimFirst (l : List HtmlNode) : List HtmlNode :=
  match l with
  | .text a k c p :: rest =>
    let c' := jsTrimStart c
    if c' = "" then rest else .text a k c' p :: rest
  | _ => l

/-- Second half of the boundary cleanup: `trimEnd` the (new) last node if it
is a text node, dropping it if it becomes empty. -/
def trimLast (l : List HtmlNode) : List HtmlNode :=
  match l.getLast? with
  | some (.text a k c p) =>
    let c' := jsTrimEnd c
    if c' = "" then l.dropLast else l.dropLast ++ [.text a k c' p]
  | _ => l

/-- The boundary cleanup of `postProcess`: the first-node trim, then the
last-node trim, sequentially as in the source. -/
def trimBoundary (l : List HtmlNode) : List HtmlNode :=
  trimLast (trimFirst l)

mutual

/-- The per-node recursion of `postProcess`: elements get their children
post-processed (`node.children = postProcess(node.children)`, with
`postProcess` inlined as merge-then-trim so that the mutual recursion is
structural). -/
def postProcessNode : HtmlNode → HtmlNode
  | .text a k c p => .text a k c p
  | .element a k t attrs cls ps ch par =>
    .element a k t attrs cls ps
      (trimBoundary (mergeAdjacentText (postProcessEach ch))) par

def postProcessEach : List HtmlNode → List HtmlNode
  | [] => []
  | n :: rest => postProcessNode n :: postProcessEach rest

end

/-- `postProcess`: recursively merge adjacent text siblings, then trim
leading/trailing whitespace text at this level. -/
def postProcess (nodes : List HtmlNode) : List HtmlNode :=
  trimBoundary (mergeAdjacentText (postProcessEach nodes))

/-! ### parseHtml -/

/-- `ParseResult`. -/
structure ParseResult where
  nodes : List HtmlNode
  errors : List String
deriving Repr

/-- The outcome handed to the `DomHandler` callback by the tokenizer:
either an error or the DOM forest. -/
abbrev TokenizerOutcome := Except String (List DomNode)

/-- `parseHtml`: on a tokenizer error, push the message and keep the (empty)
node list; otherwise convert the DOM and, when whitespace normalization is
on, post-process. Always returns a `ParseResult`; never throws. -/
def parseHtml (input : TokenizerOutcome) (options : ParserOptions)
    (ctr : Nat) : ParseResult :=
  match input with
  | .error e => { nodes := [], errors := [e] }
  | .ok dom =>
    let r := convertChildren dom none options ctr
    let nodes := if options.normalizeWhitespace then postProcess r.1 else r.1
    { nodes := nodes, errors := [] }

/-- `parseHtmlStrict`: parse with default options and throw (modelled as
`Except.error`) exactly when the error list is non-empty. -/
def parseHtmlStrict (input : TokenizerOutcome) (ctr : Nat) :
    Except String (List HtmlNode) :=
  let r := parseHtml input defaultParserOptions ctr
  if r.errors ≠ [] then
    .error ("HTML parsing failed: " ++ jsJoin ", " r.errors)
  else
    .ok r.nodes

/-! ### Tree invariants -/

mutual

/-- All objects of a tree (the node and, recursively, its descendants). -/
def flattenNode : HtmlNode → List HtmlNode
  | .text a k c p => [.text a k c p]
  | .element a k t attrs cls ps ch par =>
    .element a k t attrs cls ps ch par :: flattenForest ch

def flattenForest : List HtmlNode → List HtmlNode
  | [] => []
  | n :: rest => flattenNode n ++ flattenForest rest

end

/-- Parent-consistency of a forest: every node in the forest whose `parent`
reference is present appears (by object identity, i.e. by address) in the
children array of a node of the forest carrying that address. -/
def parentConsistentB (roots : List HtmlNode) : Bool :=
  (flattenForest roots).all (fun n =>
    match nodeParent n with
    | none => true
    | some p =>
      (flattenForest roots).any (fun m =>
        nodeAddr m = p &&
          (nodeChildren m).any (fun c => nodeAddr c = nodeAddr n)))

/-- No two consecutive text nodes in a list. -/
def noAdjacentTextB : List HtmlNode → Bool
  | .text _ _ _ _ :: .text _ _ _ _ :: _ => false
  | _ :: rest => noAdjacentTextB rest
  | [] => true

/-- The first entry is not a text node whose content is empty after
trimming. -/
def headContentOkB (l : List HtmlNode) : Bool :=
  match l.head? with
  | some (.text _ _ c _) => !isWhitespaceOnly c
  | _ => true

/-- The last entry is not a text node whose content is empty after
trimming. -/
def lastContentOkB (l : List HtmlNode) : Bool :=
  match l.getLast? with
  | some (.text _ _ c _) => !isWhitespaceOnly c
  | _ => true

/-- Neither the first nor the last entry of a list is a text node whose
content is empty after trimming. -/
def boundaryOkB (l : List HtmlNode) : Bool :=
  headContentOkB l && lastContentOkB l

mutual

/-- The C3 invariant per node: a text node is clean; an element is clean
when its children array has no adjacent text nodes, no all-whitespace text
at its boundaries, and recursively clean members. -/
def cleanNodeB : HtmlNode → Bool
  | .text _ _ _ _ => true
  | .element _ _ _ _ _ _ ch _ =>
    noAdjacentTextB ch && boundaryOkB ch && cleanEachB ch

def cleanEachB : List HtmlNode → Bool
  | [] => true
  | n :: rest => cleanNodeB n && cleanEachB rest

end

/-- The C3 invariant for a forest: the top-level array (like every children
array) has no adjacent text nodes and no all-whitespace text at its
boundaries, and every member is recursively clean. -/
def cleanForestB (l : List HtmlNode) : Bool :=
  noAdjacentTextB l && boundaryOkB l && cleanEachB l

/-! ## Plugin registry (src/plugins/pluginRegistry.ts)

Renderer functions, transform functions and style-modifier functions are
opaque payloads; the registry never calls them, so they are modelled by a
type parameter `α` (instantiated with `Nat` in concrete witnesses).
`setup`/`cleanup` callbacks are modelled by presence flags plus an event log
on the registry state recording their invocations. -/

structure HtmlPlugin (α : Type) where
  name : String
  priority : Option Int := none
  tagRenderers : List (String × α) := []
  nodeTransforms : List α := []
  styleModifiers : List (String × α) := []
  hasSetup : Bool := false
  hasCleanup : Bool := false
deriving Repr, DecidableEq

/-- Effective priority: `plugin.priority ?? 100`. -/
def effPriority {α : Type} (p : HtmlPlugin α) : Int :=
  p.priority.getD 100

/-- Stable sort by ascending effective priority, modelling
`Array.prototype.sort` (stable) with comparator
`(a.priority ?? 100) - (b.priority ?? 100)`: insert after every element of
equal or smaller effective priority. -/
def insertByPriority {α : Type} (p : HtmlPlugin α) :
    List (HtmlPlugin α) → List (HtmlPlugin α)
  | [] => [p]
  | q :: rest =>
    if effPriority q ≤ effPriority p then q :: insertByPriority p rest
    else p :: q :: rest

def sortByPriority {α : Type} (ps : List (HtmlPlugin α)) :
    List (HtmlPlugin α) :=
  ps.foldr insertByPriority []

/-- `PluginRegistryState` plus the callback-invocation log. -/
structure RegistryState (α : Type) where
  plugins : List (String × HtmlPlugin α)
  renderers : List (String × α)
  transforms : List α
  styleModifiers : List (String × α)
  log : List String
deriving Repr, DecidableEq

/-- The state a fresh `createPluginRegistry()` starts from. -/
def emptyRegistry (α : Type) : RegistryState α :=
  { plugins := [], renderers := [], transforms := [], styleModifiers := [],
    log := [] }

/-- `rebuildState`: sort the plugins by priority and rebuild the three merged
tables from scratch. -/
def rebuildState {α : Type} (s : RegistryState α) : RegistryState α :=
  let sortedPlugins := sortByPriority (s.plugins.map (fun kv => kv.2))
  let renderers :=
    sortedPlugins.foldl (fun acc p => objAssign acc p.tagRenderers) []
  let transforms :=
    sortedPlugins.foldl (fun acc p => acc ++ p.nodeTransforms) []
  let styleModifiers :=
    sortedPlugins.foldl (fun acc p => objAssign acc p.styleModifiers) []
  { s with renderers := renderers, transforms := transforms,
           styleModifiers := styleModifiers }

/-- `RegisterPluginOptions`. -/
structure RegisterPluginOptions where
  replace : Bool := false

/-- `Map.prototype.set`: update an existing key in place, else append. -/
def mapSet {α : Type} (m : List (String × α)) (k : String) (v : α) :
    List (String × α) :=
  objSet m k v

/-- `register(plugin, options)`: throws (second component `some message`,
with the state returned unchanged) when the name is taken and `replace` is
not set; otherwise invokes `setup` (logged), stores the plugin, and rebuilds.
-/
def register {α : Type} (s : RegistryState α) (plugin : HtmlPlugin α)
    (options : RegisterPluginOptions) : RegistryState α × Option String :=
  if (s.plugins.lookup plugin.name).isSome && !options.replace then
    (s, some ("Plugin \"" ++ plugin.name ++ "\" is already registered"))
  else
    let s1 := if plugin.hasSetup then
        { s with log := s.log ++ ["setup:" ++ plugin.name] }
      else s
    let s2 := { s1 with plugins := mapSet s1.plugins plugin.name plugin }
    (rebuildState s2, none)

/-- `unregister(name)`: invoke `cleanup` (logged) and remove, rebuilding;
returns `false` when the name is unknown. -/
def unregister {α : Type} (s : RegistryState α) (name : String) :
    RegistryState α × Bool :=
  match s.plugins.lookup name with
  | none => (s, false)
  | some plugin =>
    let s1 := if plugin.hasCleanup then
        { s with log := s.log ++ ["cleanup:" ++ name] }
      else s
    let s2 := { s1 with plugins := s1.plugins.filter (fun kv => kv.1 ≠ name) }
    (rebuildState s2, true)

/-- `getRenderer(tagName)`. -/
def getRenderer {α : Type} (s : RegistryState α) (tagName : String) :
    Option α :=
  s.renderers.lookup tagName

/-! ### applyTransforms

For `applyTransforms` the transforms must actually be applied, and change
detection is `result !== current` — reference identity. Nodes are therefore
modelled as opaque references (`Nat` addresses) and a transform as a function
from the node reference and the optional parent reference to
`HtmlNode | null` (`Option Nat`). -/

abbrev NodeTransformFn := Nat → Option Nat → Option Nat

/-- `TransformResult`. -/
structure TransformResult where
  node : Option Nat
  transformed : Bool
deriving Repr, DecidableEq

/-- The loop of `applyTransforms`: `current` starts as the node; each
transform runs on the current node (breaking when it is null); a result that
differs by identity from the input becomes the new current and sets the
`transformed` flag. -/
def applyTransformsGo (parent : Option Nat) :
    List NodeTransformFn → Option Nat → Bool → TransformResult
  | [], current, transformed => ⟨current, transformed⟩
  | t :: rest, current, transformed =>
    match current with
    | none => ⟨none, transformed⟩
    | some c =>
      let result := t c parent
      if result ≠ some c then applyTransformsGo parent rest result true
      else applyTransformsGo parent rest (some c) transformed

/-- `applyTransforms(node, parent)` over the registry's transform list. -/
def applyTransforms (transforms : List NodeTransformFn) (node : Nat)
    (parent : Option Nat) : TransformResult :=
  applyTransformsGo parent transforms (some node) false

/-! ## ContentCache (src/renderer/NodeRenderer.tsx)

A `Map`-backed LRU cache; the entry map is an insertion-ordered association
list, timestamps (`Date.now()`) are explicit `Int` inputs. -/

structure ContentCache (V : Type) where
  entries : List (String × V × Int)
  maxSize : Nat
  maxAge : Int
deriving Repr, DecidableEq

/-- `new ContentCache(maxSize, maxAgeMs)`. -/
def ContentCache.empty (V : Type) (maxSize : Nat) (maxAge : Int) :
    ContentCache V :=
  { entries := [], maxSize := maxSize, maxAge := maxAge }

/-- `Map.prototype.delete(key)`. -/
def mapDelete {V : Type} (m : List (String × V)) (k : String) :
    List (String × V) :=
  m.filter (fun kv => kv.1 ≠ k)

/-- `get(key)`: miss on absent key; an expired entry is deleted and misses;
a fresh hit is moved to the most-recently-used end (delete + re-set of the
same entry, timestamp unchanged). Returns the value and the new state. -/
def cacheGet {V : Type} (c : ContentCache V) (key : String) (now : Int) :
    Option V × ContentCache V :=
  match c.entries.lookup key with
  | none => (none, c)
  | some (v, ts) =>
    if now - ts > c.maxAge then
      (none, { c with entries := mapDelete c.entries key })
    else
      (some v,
       { c with entries := mapDelete c.entries key ++ [(key, v, ts)] })

/-- `set(key, value)`: when at capacity, delete the oldest key — but only if
that key is truthy (`if (oldestKey)`), so an empty-string oldest key is never
evicted; then `Map.set` the new entry. -/
def cacheSet {V : Type} (c : ContentCache V) (key : String) (value : V)
    (now : Int) : ContentCache V :=
  let c1 :=
    if c.entries.length ≥ c.maxSize then
      match c.entries.head? with
      | some (oldestKey, _) =>
        if oldestKey ≠ "" then
          { c with entries := mapDelete c.entries oldestKey }
        else c
      | none => c
    else c
  { c1 with entries := mapSet c1.entries key (value, now) }

/-- A get/set operation with its `Date.now()` timestamp. -/
inductive CacheOp (V : Type) where
  | get (key : String) (now : Int)
  | set (key : String) (value : V) (now : Int)
deriving Repr

/-- Key of an operation. -/
def CacheOp.key {V : Type} : CacheOp V → String
  | .get k _ => k
  | .set k _ _ => k

/-- Run a sequence of operations. -/
def runCacheOps {V : Type} (c : ContentCache V) : List (CacheOp V) →
    ContentCache V
  | [] => c
  | .get k now :: rest => runCacheOps (cacheGet c k now).2 rest
  | .set k v now :: rest => runCacheOps (cacheSet c k v now) rest

/-! ## Helper lemmas on the JS-object model -/

theorem beqT {a b : String} (h : a = b) : (a == b) = true := by
  simp [beq_iff_eq, h]

theorem beqF {a b : String} (h : a ≠ b) : (a == b) = false :=
  beq_eq_false_iff_ne.mpr h

theorem lookup_objSet {α : Type} (o : List (String × α)) (k k' : String)
    (v : α) :
    (objSet o k v).lookup k' = if k' = k then some v else o.lookup k' := by
  induction o with
  | nil =>
    by_cases h : k' = k
    · simp [objSet, List.lookup_cons, beqT h, h]
    · simp [objSet, List.lookup_cons, beqF h, h]
  | cons kv rest ih =>
    rcases kv with ⟨k0, v0⟩
    by_cases hk : k0 = k
    · simp only [objSet, if_pos hk]
      by_cases h : k' = k
      · simp [List.lookup_cons, beqT h, h]
      · have h0 : k' ≠ k0 := fun e => h (e.trans hk)
        simp [List.lookup_cons, beqF h, beqF h0, h]
    · simp only [objSet, if_neg hk]
      by_cases h0 : k' = k0
      · have h : k' ≠ k := fun e => hk (h0 ▸ e)
        simp [List.lookup_cons, beqT h0, h]
      · simp [List.lookup_cons, beqF h0, ih]

theorem lookup_eq_none_of_keys {α : Type} (l : List (String × α))
    (k : String) (h : ∀ kv ∈ l, kv.1 ≠ k) : l.lookup k = none := by
  induction l with
  | nil => rfl
  | cons kv rest ih =>
    have h1 : kv.1 ≠ k := h kv (by simp)
    have hb : (k == kv.1) = false := by
      simp only [beq_eq_false_iff_ne, ne_eq]
      exact fun e => h1 e.symm
    rw [List.lookup_cons, hb]
    simp only [Bool.false_eq_true, if_false]
    exact ih (fun x hx => h x (List.mem_cons_of_mem _ hx))

theorem lookup_objAssign {α : Type} (b e : List (String × α)) (k : String)
    (h : (e.map Prod.fst).Nodup) :
    (objAssign b e).lookup k =
      match e.lookup k with
      | some v => some v
      | none => b.lookup k := by
  induction e generalizing b with
  | nil => simp [objAssign]
  | cons kv rest ih =>
    simp only [List.map_cons, List.nodup_cons] at h
    have step : objAssign b (kv :: rest) = objAssign (objSet b kv.1 kv.2) rest := by
      simp [objAssign]
    rw [step, ih _ h.2]
    by_cases hk : k = kv.1
    · have hrest : rest.lookup k = none := by
        apply lookup_eq_none_of_keys
        intro x hx e
        exact h.1 (List.mem_map.mpr ⟨x, hx, e.trans hk⟩)
      rw [List.lookup_cons, beqT hk, hrest, lookup_objSet, if_pos hk]
    · rw [List.lookup_cons, beqF hk, lookup_objSet, if_neg hk]

/-! ## Claim C1 -/

/-- C1: the resolver created by `createStyleResolver` merges style sources
per attribute key in fixed increasing precedence
base < built-in tag default < user tag style < user class styles < inline
style attribute: for every element node whose tag has a built-in default
color (the spec instantiates it as `black`), with user tag style
`{color: red}`, a matching class style `{color: blue}` and inline
`color: green`, the resolved color is `green`; removing the inline
declaration yields `blue`; removing the class match yields `red`; removing
the user tag style yields the built-in default color. -/
theorem c1_style_precedence (tag cls : String) (a k : Nat)
    (ch : List HtmlNode) (par : Option Nat) (cd : Value)
    (hd : (getDefaultTagStyle tag).lookup "color" = some cd)
    (hnodup : ((getDefaultTagStyle tag).map Prod.fst).Nodup) :
    ((resolveStyle
        { tagsStyles := [(tag, [("color", Value.str "red")])],
          classesStyles := [(cls, [("color", Value.str "blue")])] }
        (.element a k tag [("style", "color: green")] (some [cls]) none ch
          par)).style.lookup "color") = some (Value.str "green") ∧
    ((resolveStyle
        { tagsStyles := [(tag, [("color", Value.str "red")])],
          classesStyles := [(cls, [("color", Value.str "blue")])] }
        (.element a k tag [] (some [cls]) none ch par)).style.lookup
      "color") = some (Value.str "blue") ∧
    ((resolveStyle
        { tagsStyles := [(tag, [("color", Value.str "red")])] }
        (.element a k tag [] none none ch par)).style.lookup
      "color") = some (Value.str "red") ∧
    ((resolveStyle {} (.element a k tag [] none none ch par)).style.lookup
      "color") = some cd := by
  have hne : getDefaultTagStyle tag ≠ [] := by
    intro e; rw [e] at hd; simp at hd
  have hlen : 0 < (getDefaultTagStyle tag).length := List.length_pos.mpr hne
  have hinl : parseInlineStyle (some "color: green") =
      [("color", Value.str "green")] := by decide
  refine ⟨?_, ?_, ?_, ?_⟩
  · simp only [resolveStyle, nodeTagName, nodeClassNames, nodeAttributes]
    simp [hlen, mergeStyles]
    rw [hinl]
    simp only [List.length_cons, List.length_nil, List.foldl_cons,
      List.foldl_nil]
    norm_num
    rw [lookup_objAssign _ [("color", Value.str "green")] _ (by decide)]
    simp [List.lookup_cons]
  · simp only [resolveStyle, nodeTagName, nodeClassNames, nodeAttributes]
    simp [hlen, mergeStyles]
    rw [lookup_objAssign _ [("color", Value.str "blue")] _ (by decide)]
    simp [List.lookup_cons]
  · simp only [resolveStyle, nodeTagName, nodeClassNames, nodeAttributes]
    simp [hlen, mergeStyles]
    rw [lookup_objAssign _ [("color", Value.str "red")] _ (by decide)]
    simp [List.lookup_cons]
  · simp only [resolveStyle, nodeTagName, nodeClassNames, nodeAttributes]
    simp [hlen, mergeStyles]
    rw [lookup_objAssign [] (getDefaultTagStyle tag) _ hnodup, hd]

/-- Witness for C1 at the concrete tag `blockquote`, whose built-in default
style carries `color: #666666`, with class `c`. -/
theorem c1_style_precedence_witness :
    ((resolveStyle
        { tagsStyles := [("blockquote", [("color", Value.str "red")])],
          classesStyles := [("c", [("color", Value.str "blue")])] }
        (.element 0 0 "blockquote" [("style", "color: green")] (some ["c"])
          none [] none)).style.lookup "color") = some (Value.str "green") ∧
    ((resolveStyle
        { tagsStyles := [("blockquote", [("color", Value.str "red")])],
          classesStyles := [("c", [("color", Value.str "blue")])] }
        (.element 0 0 "blockquote" [] (some ["c"]) none [] none)).style.lookup
      "color") = some (Value.str "blue") ∧
    ((resolveStyle
        { tagsStyles := [("blockquote", [("color", Value.str "red")])] }
        (.element 0 0 "blockquote" [] none none [] none)).style.lookup
      "color") = some (Value.str "red") ∧
    ((resolveStyle {}
        (.element 0 0 "blockquote" [] none none [] none)).style.lookup
      "color") = some (Value.str "#666666") :=
  c1_style_precedence "blockquote" "c" 0 0 [] none (Value.str "#666666")
    (by decide) (by decide)

/-! ## Claim C8 -/

theorem numericMatchBody_unit_mem (sign : String) (body : List Char)
    (ns u : String) (h : numericMatchBody sign body = some (ns, some u)) :
    u ∈ cssUnits := by
  simp only [numericMatchBody] at h
  split_ifs at h with h1 h2 h3
  · simp at h
  · simp only [Option.some.injEq, Prod.mk.injEq] at h
    exact h.2 ▸ List.elem_iff.mp h3

theorem numericMatch_unit_mem (t ns u : String)
    (h : numericMatch t = some (ns, some u)) : u ∈ cssUnits := by
  unfold numericMatch at h
  split at h
  · exact numericMatchBody_unit_mem _ _ _ _ h
  · exact numericMatchBody_unit_mem _ _ _ _ h

/-- C8: for every recognized declaration with a numeric value and a unit
suffix, the value converts as: `px` keeps the number, `em`/`rem` multiply by
16, `pt` multiplies by 1.333, and `%`/`vh`/`vw` yield the percentage string;
in particular `parseInlineStyle('margin: 10px')` is `{margin: 10}` and
`parseInlineStyle('font-size: 1em')` is `{fontSize: 16}`. -/
theorem c8_unit_conversion (s prop numStr u : String) (q : ℚ)
    (hin : jsTrim s ≠ "inherit" ∧ jsTrim s ≠ "initial" ∧ jsTrim s ≠ "unset")
    (hfw : prop ≠ "fontWeight" ∧ prop ≠ "font-weight")
    (hm : numericMatch (jsTrim s) = some (numStr, some u))
    (hq : parseFloatQ numStr = some q) :
    (parseValue s prop =
      (if u = "px" then some (Value.num q)
       else if u = "em" then some (Value.num (q * 16))
       else if u = "rem" then some (Value.num (q * 16))
       else if u = "pt" then some (Value.num (q * (1333 / 1000 : ℚ)))
       else some (Value.str (qToString q ++ "%")))) ∧
    parseInlineStyle (some "margin: 10px") = [("margin", Value.num 10)] ∧
    parseInlineStyle (some "font-size: 1em") =
      [("fontSize", Value.num 16)] := by
  refine ⟨?_, by decide, ?_⟩
  · have hu := numericMatch_unit_mem _ _ _ hm
    simp only [parseValue, hin.1, hin.2.1, hin.2.2, hfw.1, hfw.2, hm, hq]
    simp only [cssUnits, List.mem_cons, List.not_mem_nil, or_false] at hu
    rcases hu with rfl | rfl | rfl | rfl | rfl | rfl | rfl <;> simp
  · have h : parseInlineStyle (some "font-size: 1em") =
        [("fontSize", Value.num (((1 : Nat) : ℚ) * 16))] := rfl
    rw [h]
    norm_num

/-- Witness for C8 at the declaration `margin: 10px` (`s = "10px"`,
property `margin`, matched number `10`, unit `px`). -/
theorem c8_unit_conversion_witness :
    parseValue "10px" "margin" = some (Value.num 10) ∧
    parseInlineStyle (some "margin: 10px") = [("margin", Value.num 10)] := by
  have h := c8_unit_conversion "10px" "margin" "10" "px" 10
    (by refine ⟨?_, ?_, ?_⟩ <;> decide) (by refine ⟨?_, ?_⟩ <;> decide)
    (by decide) (by decide)
  exact ⟨by simpa using h.1, h.2.1⟩

/-! ## Claim C9 -/

theorem classFold_snd (cs : List (String × Style)) (lst : List String)
    (st : List Style) (hc : Bool) :
    (lst.foldl
      (fun (acc : List Style × Bool) className =>
        match cs.lookup className with
        | some classStyle => (acc.1 ++ [classStyle], true)
        | none => acc) (st, hc)).2 =
      (hc || lst.any (fun c => (cs.lookup c).isSome)) := by
  induction lst generalizing st hc with
  | nil => simp
  | cons c rest ih =>
    simp only [List.foldl_cons, List.any_cons]
    rcases h : cs.lookup c with - | v
    · simp [h, ih]
    · simp [h, ih]

/-- C9 (amended): `hasCustomStyles` is true iff the user tag-styles map has
an entry (possibly empty) for the node's tag, or some class in `classNames`
has an entry (possibly empty) in the user class-styles map, or the `style`
attribute is present, non-empty, and parses to a non-empty inline style.
For the tag and class tiers the mere presence of the (possibly empty) entry
sets the flag; only the inline tier requires a non-empty parsed object. -/
theorem c9_hasCustomStyles_eq (config : StyleResolverConfig) (a k : Nat)
    (tag : String) (attrs : List (String × String))
    (cls : Option (List String)) (ps : Option Style) (ch : List HtmlNode)
    (par : Option Nat) :
    (resolveStyle config
        (.element a k tag attrs cls ps ch par)).hasCustomStyles =
      ((config.tagsStyles.lookup tag).isSome ||
       (cls.getD []).any (fun c => (config.classesStyles.lookup c).isSome) ||
       (match attrs.lookup "style" with
        | some s => !(s == "") && !((parseInlineStyle (some s)).isEmpty)
        | none => false)) := by
  rcases ht : config.tagsStyles.lookup tag with - | ts <;>
    rcases hs : List.lookup "style" attrs with - | s <;>
    rcases cls with - | ⟨- | ⟨c0, rest⟩⟩ <;>
    simp only [resolveStyle, nodeTagName, nodeClassNames, nodeAttributes, ht,
      hs, Option.getD_some, Option.getD_none, List.length_nil, List.length_cons,
      List.any_nil, List.any_cons, Option.isSome_none, Option.isSome_some,
      Bool.false_or, Bool.true_or, Bool.or_false, Nat.zero_lt_succ, if_true,
      ite_true, lt_self_iff_false, if_false, ite_false] <;>
    try rw [classFold_snd]
  all_goals simp [List.isEmpty_iff, List.length_pos]
  all_goals try (by_cases he : s = "" <;>
    by_cases hp : parseInlineStyle (some s) = [] <;>
    simp [he, hp, List.length_pos, List.isEmpty_iff])
  all_goals
    rcases h0 : List.lookup c0 config.classesStyles with - | v <;>
      simp only [h0] <;> rw [classFold_snd] <;> simp

/-- Counterexample to C9 as stated: with the user tag style for `p` present
but *empty*, no classes and no inline style attribute, no custom tier
contributes a non-empty style object, yet `hasCustomStyles` is `true` —
the source flags the mere presence of a (truthy) tag-style entry. -/
theorem c9_counterexample :
    (resolveStyle { tagsStyles := [("p", [])] }
      (.element 0 0 "p" [] none none [] none)).hasCustomStyles = true ∧
    ({ tagsStyles := [("p", [])] } : StyleResolverConfig).tagsStyles.lookup "p"
      = some [] ∧
    nodeClassNames (.element 0 0 "p" [] none none [] none) = none ∧
    (nodeAttributes (.element 0 0 "p" [] none none [] none)).lookup "style"
      = none := by
  refine ⟨by decide, by decide, by decide, by decide⟩

/-! ## Claim C5 -/

/-- The transform-chain semantics as the spec words it: thread the node
through the transforms in order, feeding each transform's result to the
next; a `null` return terminates the chain with a null node (and counts as
a change); the `transformed` flag is the disjunction of the per-step
"returned a different reference" tests (identity = address comparison). -/
def transformChainSpec (parent : Option Nat) :
    List NodeTransformFn → Nat → TransformResult
  | [], c => ⟨some c, false⟩
  | t :: rest, c =>
    match t c parent with
    | none => ⟨none, true⟩
    | some c' =>
      let r := transformChainSpec parent rest c'
      ⟨r.node, (c' != c) || r.transformed⟩

theorem applyTransformsGo_none (parent : Option Nat)
    (ts : List NodeTransformFn) (tr : Bool) :
    applyTransformsGo parent ts none tr = ⟨none, tr⟩ := by
  cases ts <;> rfl

theorem applyTransformsGo_flag (parent : Option Nat)
    (ts : List NodeTransformFn) (cur : Option Nat) (tr : Bool) :
    applyTransformsGo parent ts cur tr =
      ⟨(applyTransformsGo parent ts cur false).node,
       tr || (applyTransformsGo parent ts cur false).transformed⟩ := by
  induction ts generalizing cur tr with
  | nil => cases tr <;> rfl
  | cons t rest ih =>
    rcases cur with - | c
    · rw [applyTransformsGo_none, applyTransformsGo_none]
      cases tr <;> rfl
    · have hstep : ∀ b, applyTransformsGo parent (t :: rest) (some c) b =
          (if t c parent ≠ some c then
            applyTransformsGo parent rest (t c parent) true
           else applyTransformsGo parent rest (some c) b) := fun b => rfl
      by_cases h : t c parent = some c
      · rw [hstep tr, hstep false, if_neg (by simp [h]), if_neg (by simp [h])]
        exact ih _ tr
      · rw [hstep tr, hstep false, if_pos (by simp [h]), if_pos (by simp [h])]
        rw [ih _ true]
        simp

/-- C5: `applyTransforms` equals the spec's chain semantics: transforms are
applied in registry order, each one's result (compared by identity) is fed
to the next, a null return short-circuits to a null node, and the
`transformed` flag is true exactly when some applied transform returned a
reference different from its input. -/
theorem c5_applyTransforms_spec (ts : List NodeTransformFn) (node : Nat)
    (parent : Option Nat) :
    applyTransforms ts node parent = transformChainSpec parent ts node := by
  induction ts generalizing node with
  | nil => rfl
  | cons t rest ih =>
    show applyTransformsGo parent (t :: rest) (some node) false = _
    have step : applyTransformsGo parent (t :: rest) (some node) false =
        (if t node parent ≠ some node then
          applyTransformsGo parent rest (t node parent) true
         else applyTransformsGo parent rest (some node) false) := rfl
    rw [step]
    rcases hr : t node parent with - | c'
    · rw [if_pos (by simp), applyTransformsGo_none]
      simp [transformChainSpec, hr]
    · by_cases h : c' = node
      · subst h
        rw [if_neg (by simp)]
        rw [show applyTransformsGo parent rest (some c') false =
            applyTransforms rest c' parent from rfl, ih]
        simp [transformChainSpec, hr]
      · rw [if_pos (by simp [h]), applyTransformsGo_flag,
          show applyTransformsGo parent rest (some c') false =
            applyTransforms rest c' parent from rfl, ih]
        simp [transformChainSpec, hr, h]

/-! ## Claim C7 -/

/-- C7: `register` throws (returns an error message) iff a plugin with the
same name is registered and `replace` is not set; on that failure the whole
registry state — plugin map, the three merged tables and the callback log
(so the setup callback was not invoked) — is returned unchanged; on success
the plugin is stored under its name and `setup` is invoked (logged) exactly
when the plugin has one, the invocation happening before the store in the
source order. -/
theorem c7_register_conflict {α : Type} (s : RegistryState α)
    (p : HtmlPlugin α) (o : RegisterPluginOptions) :
    ((register s p o).2.isSome ↔
      ((s.plugins.lookup p.name).isSome ∧ o.replace = false)) ∧
    ((register s p o).2.isSome → (register s p o).1 = s) ∧
    ((register s p o).2 = none →
      ((register s p o).1.plugins.lookup p.name = some p ∧
       (register s p o).1.log =
         (if p.hasSetup then s.log ++ ["setup:" ++ p.name] else s.log))) := by
  by_cases hc : ((s.plugins.lookup p.name).isSome && !o.replace) = true
  · have hr : register s p o =
        (s, some ("Plugin \"" ++ p.name ++ "\" is already registered")) := by
      unfold register
      rw [if_pos hc]
    rw [hr]
    refine ⟨?_, fun _ => rfl, by simp⟩
    simp only [Option.isSome_some, true_iff]
    simp only [Bool.and_eq_true, Bool.not_eq_eq_eq_not, Bool.not_true] at hc
    exact ⟨hc.1, hc.2⟩
  · have hr : register s p o =
        (rebuildState { (if p.hasSetup then
            { s with log := s.log ++ ["setup:" ++ p.name] } else s) with
          plugins := mapSet (if p.hasSetup then
            { s with log := s.log ++ ["setup:" ++ p.name] } else s).plugins
            p.name p }, none) := by
      unfold register
      rw [if_neg hc]
    rw [hr]
    refine ⟨?_, by simp, fun _ => ⟨?_, ?_⟩⟩
    · simp only [Option.isSome_none, Bool.false_eq_true, false_iff, not_and]
      intro h1 h2
      exact hc (by simp [h1, h2])
    · show (mapSet _ p.name p).lookup p.name = some p
      rw [mapSet, lookup_objSet, if_pos rfl]
    · cases hp : p.hasSetup <;> simp [rebuildState, hp]

/-- Witness for C7: the failure case at a one-plugin registry colliding with
itself, and the success case at the empty registry. -/
theorem c7_register_conflict_witness :
    ((register
        { plugins := [("a", { name := "a", hasSetup := true })],
          renderers := [], transforms := [], styleModifiers := [], log := [] }
        { name := "a", hasSetup := true } {}).1 =
      { plugins := [("a", ({ name := "a", hasSetup := true } : HtmlPlugin Nat))],
        renderers := [], transforms := [], styleModifiers := [], log := [] }) ∧
    ((register (emptyRegistry Nat) { name := "a", hasSetup := true }
        {}).1.plugins.lookup "a" =
      some { name := "a", hasSetup := true } ∧
     (register (emptyRegistry Nat) { name := "a", hasSetup := true }
        {}).1.log = (if true then [] ++ ["setup:" ++ "a"] else [])) :=
  ⟨(c7_register_conflict _ _ _).2.1 (by decide),
   by
    have h := (c7_register_conflict (emptyRegistry Nat)
      { name := "a", hasSetup := true } {}).2.2 (by decide)
    exact ⟨h.1, h.2⟩⟩

/-! ## Claim C4 -/

/-- C4: `parseHtml` always returns a `{nodes, errors}` record — it is a total
function of the tokenizer outcome, and on a tokenizer error the message is
appended to the error list while a node list is still returned (never a
throw); `parseHtmlStrict` throws (returns `Except.error`) iff `parseHtml`
produces a non-empty error list, and otherwise returns exactly the node list
`parseHtml` would return. -/
theorem c4_parse_never_throws (input : TokenizerOutcome)
    (opts : ParserOptions) (ctr : Nat) :
    (∀ e, parseHtml (.error e) opts ctr = { nodes := [], errors := [e] }) ∧
    ((∃ msg, parseHtmlStrict input ctr = .error msg) ↔
      (parseHtml input defaultParserOptions ctr).errors ≠ []) ∧
    ((parseHtml input defaultParserOptions ctr).errors = [] →
      parseHtmlStrict input ctr =
        .ok (parseHtml input defaultParserOptions ctr).nodes) := by
  refine ⟨fun e => rfl, ?_, ?_⟩
  · simp only [parseHtmlStrict]
    by_cases h : (parseHtml input defaultParserOptions ctr).errors = []
    · rw [if_neg (by simp [h])]
      simp [h]
    · rw [if_pos h]
      simp [h]
  · intro h
    simp only [parseHtmlStrict]
    rw [if_neg (by simp [h])]

/-- Witness for C4: a tokenizer error input has its message collected, and a
well-formed input parses strictly to the same nodes. -/
theorem c4_parse_never_throws_witness :
    parseHtml (.error "boom") defaultParserOptions 0 =
      { nodes := [], errors := ["boom"] } ∧
    parseHtmlStrict (.ok [DomNode.text "hi"]) 0 =
      .ok (parseHtml (.ok [DomNode.text "hi"]) defaultParserOptions 0).nodes :=
  ⟨(c4_parse_never_throws (.error "boom") defaultParserOptions 0).1 "boom",
   (c4_parse_never_throws (.ok [DomNode.text "hi"]) defaultParserOptions
      0).2.2 (by decide)⟩

/-! ## Claim C10 -/

theorem mem_of_lookup_eq_some {V : Type} (m : List (String × V)) (k : String)
    (v : V) (h : m.lookup k = some v) : (k, v) ∈ m := by
  induction m with
  | nil => simp at h
  | cons kv rest ih =>
    rw [List.lookup_cons] at h
    by_cases hk : k = kv.1
    · simp only [beqT hk, Option.some.injEq] at h
      exact List.mem_cons.mpr (Or.inl (by rw [hk, ← h]))
    · simp only [beqF hk] at h
      exact List.mem_cons_of_mem _ (ih h)

theorem length_mapDelete_lt {V : Type} (m : List (String × V)) (k : String)
    (v : V) (h : m.lookup k = some v) :
    (mapDelete m k).length < m.length := by
  induction m with
  | nil => simp at h
  | cons kv rest ih =>
    by_cases hk : kv.1 = k
    · have hdrop : mapDelete (kv :: rest) k = mapDelete rest k := by
        simp [mapDelete, List.filter_cons, hk]
      rw [hdrop]
      have h1 : (mapDelete rest k).length ≤ rest.length :=
        List.length_filter_le _ _
      have h2 : rest.length < (kv :: rest).length := by
        simp [Nat.lt_succ_self]
      omega
    · rw [List.lookup_cons, beqF (fun e => hk e.symm)] at h
      simp only [mapDelete, List.filter_cons]
      rw [if_pos (by simp [hk])]
      simpa [mapDelete] using Nat.succ_lt_succ (ih h)

theorem length_mapSet_le {V : Type} (m : List (String × V)) (k : String)
    (v : V) : (mapSet m k v).length ≤ m.length + 1 := by
  induction m with
  | nil => simp [mapSet, objSet]
  | cons kv rest ih =>
    simp only [mapSet, objSet] at *
    by_cases hk : kv.1 = k
    · simp [hk]
    · rw [if_neg hk]
      simpa using Nat.succ_le_succ ih

theorem mem_mapSet {V : Type} (m : List (String × V)) (k : String) (v : V)
    (kv : String × V) (h : kv ∈ mapSet m k v) : kv ∈ m ∨ kv.1 = k := by
  induction m with
  | nil =>
    simp only [mapSet, objSet, List.mem_singleton] at h
    right; rw [h]
  | cons kv0 rest ih =>
    simp only [mapSet, objSet] at h ih
    by_cases hk : kv0.1 = k
    · rw [if_pos hk] at h
      rcases List.mem_cons.mp h with h1 | h1
      · right; rw [h1]
      · left; exact List.mem_cons_of_mem _ h1
    · rw [if_neg hk] at h
      rcases List.mem_cons.mp h with h1 | h1
      · left; exact h1 ▸ List.mem_cons_self _ _
      · rcases ih h1 with h2 | h2
        · left; exact List.mem_cons_of_mem _ h2
        · right; exact h2

theorem cacheGet_preserves {V : Type} (c : ContentCache V) (k : String)
    (now : Int) (hb : c.entries.length ≤ c.maxSize)
    (hk : ∀ kv ∈ c.entries, kv.1 ≠ "") :
    (cacheGet c k now).2.maxSize = c.maxSize ∧
    (cacheGet c k now).2.entries.length ≤ c.maxSize ∧
    (∀ kv ∈ (cacheGet c k now).2.entries, kv.1 ≠ "") := by
  unfold cacheGet
  rcases hl : c.entries.lookup k with - | ⟨v, ts⟩ <;> dsimp only
  · exact ⟨rfl, hb, hk⟩
  · by_cases he : now - ts > c.maxAge
    · rw [if_pos he]
      refine ⟨rfl, ?_, ?_⟩
      · exact le_trans (le_of_lt (length_mapDelete_lt _ _ _ hl)) hb
      · intro kv hkv
        exact hk kv (List.mem_of_mem_filter hkv)
    · rw [if_neg he]
      refine ⟨rfl, ?_, ?_⟩
      · simp only [List.length_append, List.length_singleton]
        have := length_mapDelete_lt c.entries k (v, ts) hl
        omega
      · intro kv hkv
        rcases List.mem_append.mp hkv with h1 | h1
        · exact hk kv (List.mem_of_mem_filter h1)
        · have hkk : k ≠ "" :=
            hk (k, v, ts) (mem_of_lookup_eq_some _ _ _ hl)
          rw [List.mem_singleton.mp h1]
          exact hkk

theorem cacheSet_preserves {V : Type} (c : ContentCache V) (k : String)
    (v : V) (now : Int) (hm : 1 ≤ c.maxSize)
    (hb : c.entries.length ≤ c.maxSize)
    (hk : ∀ kv ∈ c.entries, kv.1 ≠ "") (hkey : k ≠ "") :
    (cacheSet c k v now).maxSize = c.maxSize ∧
    (cacheSet c k v now).entries.length ≤ c.maxSize ∧
    (∀ kv ∈ (cacheSet c k v now).entries, kv.1 ≠ "") := by
  have hmem : ∀ m : List (String × V × Int), (∀ kv ∈ m, kv.1 ≠ "") →
      ∀ kv ∈ mapSet m k (v, now), kv.1 ≠ "" := by
    intro m hma kv hkv
    rcases mem_mapSet m k (v, now) kv hkv with h1 | h1
    · exact hma kv h1
    · rw [h1]; exact hkey
  unfold cacheSet
  by_cases hcap : c.entries.length ≥ c.maxSize
  · rw [if_pos hcap]
    rcases hent : c.entries with - | ⟨⟨k0, e0⟩, rest⟩
    · rw [hent] at hcap
      simp at hcap
      omega
    · have hk0 : k0 ≠ "" := by
        have := hk (k0, e0) (by rw [hent]; exact List.mem_cons_self _ _)
        exact this
      dsimp only [List.head?]
      rw [if_pos hk0]
      dsimp only
      have hdel : (mapDelete ((k0, e0) :: rest) k0).length <
          ((k0, e0) :: rest).length := by
        apply length_mapDelete_lt _ k0 e0
        rw [List.lookup_cons, beqT rfl]
      have hlen : ((k0, e0) :: rest).length ≤ c.maxSize := by
        rw [← hent]; exact hb
      refine ⟨rfl, ?_, ?_⟩
      · have := length_mapSet_le (mapDelete ((k0, e0) :: rest) k0) k (v, now)
        omega
      · apply hmem
        intro kv hkv
        apply hk
        rw [hent]
        exact List.mem_of_mem_filter hkv
  · rw [if_neg hcap]
    dsimp only
    refine ⟨rfl, ?_, hmem _ hk⟩
    have := length_mapSet_le c.entries k (v, now)
    omega

theorem runCacheOps_bounded {V : Type} (ops : List (CacheOp V))
    (c : ContentCache V) (hm : 1 ≤ c.maxSize)
    (hb : c.entries.length ≤ c.maxSize)
    (hk : ∀ kv ∈ c.entries, kv.1 ≠ "")
    (hops : ∀ op ∈ ops, CacheOp.key op ≠ "") :
    (runCacheOps c ops).maxSize = c.maxSize ∧
    (runCacheOps c ops).entries.length ≤ c.maxSize := by
  induction ops generalizing c with
  | nil => exact ⟨rfl, hb⟩
  | cons op rest ih =>
    rcases op with ⟨k, now⟩ | ⟨k, v, now⟩
    · have h := cacheGet_preserves c k now hb hk
      have := ih (cacheGet c k now).2 (h.1 ▸ hm) (h.1 ▸ h.2.1) h.2.2
        (fun o ho => hops o (List.mem_cons_of_mem _ ho))
      exact ⟨this.1.trans h.1, h.1 ▸ this.2⟩
    · have hkey : k ≠ "" := hops _ (List.mem_cons_self _ _)
      have h := cacheSet_preserves c k v now hm hb hk hkey
      have := ih (cacheSet c k v now) (h.1 ▸ hm) (h.1 ▸ h.2.1) h.2.2
        (fun o ho => hops o (List.mem_cons_of_mem _ ho))
      exact ⟨this.1.trans h.1, h.1 ▸ this.2⟩

/-- C10 (amended): provided the configured maximum size is at least 1 and
the empty string is never used as a key, a cache built by any sequence of
get/set operations never holds more than `maxSize` entries; inserting a
fresh key at capacity evicts the oldest entry (the head of the
insertion-ordered map); a get of an entry older than `maxAge` removes it and
returns nothing; and a fresh hit moves the entry (timestamp unchanged) to
the most-recently-used end. Without those two provisos the size bound fails
(see the counterexample): `set` skips eviction when the oldest key is the
empty string, because `if (oldestKey)` is falsy for `""`. -/
theorem c10_cache_bound {V : Type} (ops : List (CacheOp V))
    (maxSize : Nat) (maxAge : Int) (c : ContentCache V) (key k0 : String)
    (value v0 : V) (ts now : Int)
    (hm : 1 ≤ maxSize) (hops : ∀ op ∈ ops, CacheOp.key op ≠ "") :
    ((runCacheOps (ContentCache.empty V maxSize maxAge) ops).entries.length
      ≤ maxSize) ∧
    (c.entries.length ≥ c.maxSize → c.entries.head? = some (k0, v0, ts) →
      k0 ≠ "" →
      cacheSet c key value now =
        { c with
          entries := mapSet (mapDelete c.entries k0) key (value, now) }) ∧
    (c.entries.lookup key = some (v0, ts) → now - ts > c.maxAge →
      cacheGet c key now =
        (none, { c with entries := mapDelete c.entries key })) ∧
    (c.entries.lookup key = some (v0, ts) → ¬(now - ts > c.maxAge) →
      cacheGet c key now =
        (some v0,
         { c with entries := mapDelete c.entries key ++ [(key, v0, ts)] })) := by
  refine ⟨?_, ?_, ?_, ?_⟩
  · exact (runCacheOps_bounded ops (ContentCache.empty V maxSize maxAge) hm
      (by simp [ContentCache.empty]) (by simp [ContentCache.empty]) hops).2
  · intro hcap hhead hk0
    unfold cacheSet
    rw [if_pos hcap, hhead]
    dsimp only
    rw [if_pos hk0]
  · intro hl he
    unfold cacheGet
    rw [hl]
    dsimp only
    rw [if_pos he]
  · intro hl he
    unfold cacheGet
    rw [hl]
    dsimp only
    rw [if_neg he]

/-- Witness for C10 at `maxSize = 1` with two insertions, plus the eviction
and expiry equations on a concrete one-entry cache. -/
theorem c10_cache_bound_witness :
    ((runCacheOps (ContentCache.empty Nat 1 100)
      [.set "a" 1 0, .set "b" 2 1]).entries.length ≤ 1) ∧
    (cacheSet { entries := [("a", 5, 0)], maxSize := 1, maxAge := 100 }
        "b" 7 3 =
      { entries := mapSet (mapDelete [("a", 5, 0)] "a") "b" (7, 3),
        maxSize := 1, maxAge := 100 }) ∧
    (cacheGet { entries := [("a", 5, 0)], maxSize := 1, maxAge := 100 }
        "a" 200 =
      (none,
       { entries := mapDelete [("a", (5 : Nat), (0 : Int))] "a",
         maxSize := 1, maxAge := 100 })) ∧
    (cacheGet { entries := [("a", 5, 0)], maxSize := 1, maxAge := 100 }
        "a" 50 =
      (some 5,
       { entries := mapDelete [("a", (5 : Nat), (0 : Int))] "a" ++
           [("a", 5, 0)],
         maxSize := 1, maxAge := 100 })) :=
  ⟨(c10_cache_bound [CacheOp.set "a" 1 0, CacheOp.set "b" 2 1] 1 100
      (ContentCache.empty Nat 1 100) "b" "a" 7 5 0 3 (by decide)
      (by decide)).1,
   (c10_cache_bound [] 1 100
      { entries := [("a", 5, 0)], maxSize := 1, maxAge := 100 } "b" "a" 7 5
      0 3 (by decide) (by decide)).2.1 (by decide) (by decide) (by decide),
   (c10_cache_bound [] 1 100
      { entries := [("a", 5, 0)], maxSize := 1, maxAge := 100 } "a" "a" 7 5
      0 200 (by decide) (by decide)).2.2.1 (by decide) (by decide),
   (c10_cache_bound [] 1 100
      { entries := [("a", 5, 0)], maxSize := 1, maxAge := 100 } "a" "a" 7 5
      0 50 (by decide) (by decide)).2.2.2 (by decide) (by decide)⟩

/-- Counterexample to C10 as stated: with `maxSize = 1`, setting the empty
string as a key and then a second key leaves two entries in the cache —
`set` never evicts an empty-string oldest key, so the bound is exceeded. -/
theorem c10_counterexample :
    (runCacheOps (ContentCache.empty Nat 1 1000)
      [.set "" 7 0, .set "x" 8 0]).entries.length = 2 ∧
    (runCacheOps (ContentCache.empty Nat 1 1000)
      [.set "" 7 0, .set "x" 8 0]).maxSize = 1 := by
  refine ⟨by decide, by decide⟩

/-! ## Claim C6 -/

theorem insertByPriority_perm {α : Type} (p : HtmlPlugin α)
    (l : List (HtmlPlugin α)) : List.Perm (insertByPriority p l) (p :: l) := by
  induction l with
  | nil => rfl
  | cons q rest ih =>
    unfold insertByPriority
    by_cases h : effPriority q ≤ effPriority p
    · rw [if_pos h]
      exact (ih.cons q).trans (List.Perm.swap p q rest)
    · rw [if_neg h]

theorem sortByPriority_perm {α : Type} (P : List (HtmlPlugin α)) :
    List.Perm (sortByPriority P) P := by
  induction P with
  | nil => rfl
  | cons p rest ih =>
    exact (insertByPriority_perm p (sortByPriority rest)).trans (ih.cons p)

theorem insertByPriority_pairwise {α : Type} (p : HtmlPlugin α)
    (l : List (HtmlPlugin α))
    (h : l.Pairwise (fun a b => effPriority a ≤ effPriority b)) :
    (insertByPriority p l).Pairwise
      (fun a b => effPriority a ≤ effPriority b) := by
  induction l with
  | nil => simp [insertByPriority]
  | cons q rest ih =>
    rcases List.pairwise_cons.mp h with ⟨hq, hrest⟩
    unfold insertByPriority
    by_cases hle : effPriority q ≤ effPriority p
    · rw [if_pos hle]
      refine List.pairwise_cons.mpr ⟨?_, ih hrest⟩
      intro b hb
      have hb' := (insertByPriority_perm p rest).mem_iff.mp hb
      rcases List.mem_cons.mp hb' with rfl | h1
      · exact hle
      · exact hq b h1
    · rw [if_neg hle]
      have hpq : effPriority p ≤ effPriority q := le_of_lt (lt_of_not_le hle)
      refine List.pairwise_cons.mpr ⟨?_, h⟩
      intro b hb
      rcases List.mem_cons.mp hb with h1 | h1
      · rw [h1]; exact hpq
      · exact le_trans hpq (hq b h1)

theorem sortByPriority_pairwise {α : Type} (P : List (HtmlPlugin α)) :
    (sortByPriority P).Pairwise
      (fun a b => effPriority a ≤ effPriority b) := by
  induction P with
  | nil => simp [sortByPriority]
  | cons p rest ih => exact insertByPriority_pairwise p _ ih

theorem lookup_objAssign_none {α : Type} (b e : List (String × α))
    (k : String) (h : e.lookup k = none) :
    (objAssign b e).lookup k = b.lookup k := by
  induction e generalizing b with
  | nil => simp [objAssign]
  | cons kv rest ih =>
    rw [List.lookup_cons] at h
    rcases hbeq : (k == kv.1) with - | -
    · rw [hbeq] at h
      have step : objAssign b (kv :: rest) =
          objAssign (objSet b kv.1 kv.2) rest := by simp [objAssign]
      rw [step, ih _ h, lookup_objSet,
        if_neg (fun e => by rw [e] at hbeq; simp at hbeq)]
    · rw [hbeq] at h
      simp at h

theorem lookup_foldAssign_none {α : Type} (g : String)
    (S : List (HtmlPlugin α)) (base : List (String × α))
    (h : ∀ q ∈ S, q.tagRenderers.lookup g = none) :
    (S.foldl (fun acc p => objAssign acc p.tagRenderers) base).lookup g =
      base.lookup g := by
  induction S generalizing base with
  | nil => rfl
  | cons p rest ih =>
    rw [List.foldl_cons, ih _ (fun q hq => h q (List.mem_cons_of_mem _ hq)),
      lookup_objAssign_none _ _ _ (h p (List.mem_cons_self _ _))]

theorem perm_pair {α : Type} {a b : α} {l : List α}
    (h : List.Perm l [a, b]) : l = [a, b] ∨ l = [b, a] := by
  rcases l with - | ⟨x, l⟩
  · exact absurd h.length_eq (by simp)
  rcases l with - | ⟨y, l⟩
  · exact absurd h.length_eq (by simp)
  rcases l with - | ⟨z, l⟩
  swap
  · exact absurd h.length_eq (by simp)
  have hx : x = a ∨ x = b := by
    have := h.subset (List.mem_cons_self x [y])
    simpa using this
  have hy : y = a ∨ y = b := by
    have := h.subset (List.mem_cons_of_mem x (List.mem_cons_self y []))
    simpa using this
  have hamem : a ∈ [x, y] := h.symm.subset (List.mem_cons_self a [b])
  have hbmem : b ∈ [x, y] := h.symm.subset
    (List.mem_cons_of_mem a (List.mem_cons_self b []))
  simp only [List.mem_cons, List.not_mem_nil, or_false] at hamem hbmem
  rcases hx with rfl | rfl
  · rcases hy with rfl | rfl
    · rcases hbmem with rfl | rfl
      · exact Or.inl rfl
      · exact Or.inl rfl
    · exact Or.inl rfl
  · rcases hy with rfl | rfl
    · exact Or.inr rfl
    · rcases hamem with rfl | rfl
      · exact Or.inr rfl
      · exact Or.inr rfl

theorem foldl_append_transforms {α : Type} (S : List (HtmlPlugin α))
    (acc : List α) :
    S.foldl (fun acc p => acc ++ p.nodeTransforms) acc =
      acc ++ S.flatMap (fun p => p.nodeTransforms) := by
  induction S generalizing acc with
  | nil => simp
  | cons p rest ih => simp [ih, List.append_assoc]

/-- C6: after any registration or unregistration the merged tables are those
of `rebuildState`; when exactly two plugins supply a renderer for a tag `g`
and their effective priorities (default 100) differ, the merged table maps
`g` to the renderer of the plugin processed last in ascending-priority
order — the one with the higher priority number; and the merged transform
list is the concatenation, without deduplication, of the plugins' transform
lists in that same ascending-priority order. -/
theorem c6_priority_merge {α : Type} (s : RegistryState α) (g : String)
    (p1 p2 : HtmlPlugin α) (r : α)
    (hnod2 : (p2.tagRenderers.map Prod.fst).Nodup)
    (hfilter : (s.plugins.map Prod.snd).filter
        (fun q => (q.tagRenderers.lookup g).isSome) = [p1, p2])
    (hs2 : p2.tagRenderers.lookup g = some r)
    (hpr : effPriority p1 < effPriority p2) :
    getRenderer (rebuildState s) g = some r ∧
    (rebuildState s).transforms =
      (sortByPriority (s.plugins.map Prod.snd)).flatMap
        (fun p => p.nodeTransforms) := by
  constructor
  case right =>
    show (sortByPriority _).foldl _ [] = _
    rw [foldl_append_transforms]
    rfl
  case left =>
    set P := s.plugins.map Prod.snd with hP
    set S := sortByPriority P with hS
    set sup : HtmlPlugin α → Bool :=
      fun q => (q.tagRenderers.lookup g).isSome with hsup
    have hSperm : List.Perm S P := sortByPriority_perm P
    have hSsorted := sortByPriority_pairwise P
    have hfiltS : List.Perm (S.filter sup) [p1, p2] :=
      (hSperm.filter sup).trans (hfilter ▸ List.Perm.refl _)
    have hfsorted : (S.filter sup).Pairwise
        (fun a b => effPriority a ≤ effPriority b) :=
      List.Pairwise.sublist (List.filter_sublist S) hSsorted
    have hform : S.filter sup = [p1, p2] := by
      rcases perm_pair hfiltS with h | h
      · exact h
      · rw [h] at hfsorted
        rcases List.pairwise_cons.mp hfsorted with ⟨h21, -⟩
        exact absurd (h21 p1 (List.mem_cons_self _ _)) (not_le_of_lt hpr)
    rcases List.filter_eq_cons_iff.mp hform with
      ⟨l1, l2, hS12, hl1, hsup1, hfl2⟩
    rcases List.filter_eq_cons_iff.mp hfl2 with
      ⟨l3, l4, hl2e, hl3, hsup2, hfl4⟩
    have hl4 : ∀ q ∈ l4, q.tagRenderers.lookup g = none := by
      intro q hq
      have h2 := List.filter_eq_nil_iff.mp hfl4 q hq
      have h3 : ¬((q.tagRenderers.lookup g).isSome = true) := by
        simpa [hsup] using h2
      exact Option.not_isSome_iff_eq_none.mp h3
    show (S.foldl (fun acc p => objAssign acc p.tagRenderers) []).lookup g
      = some r
    rw [hS12, hl2e]
    rw [show l1 ++ p1 :: (l3 ++ p2 :: l4) =
      (l1 ++ p1 :: l3) ++ p2 :: l4 by simp]
    rw [List.foldl_append, List.foldl_cons]
    rw [lookup_foldAssign_none g l4 _ hl4]
    rw [lookup_objAssign _ _ _ hnod2, hs2]

/-- Concrete plugins and registry used by the C6 witness. -/
def pluginA : HtmlPlugin Nat :=
  { name := "a", priority := some 10, tagRenderers := [("video", 1)] }

def pluginB : HtmlPlugin Nat :=
  { name := "b", priority := some 20, tagRenderers := [("video", 2)],
    nodeTransforms := [5] }

def registryAB : RegistryState Nat :=
  { plugins := [("a", pluginA), ("b", pluginB)], renderers := [],
    transforms := [], styleModifiers := [], log := [] }

/-- Witness for C6: two plugins with priorities 10 and 20 both render
`video`; the priority-20 plugin's renderer (id 2) wins the merge. -/
theorem c6_priority_merge_witness :
    getRenderer (rebuildState registryAB) "video" = some 2 ∧
    (rebuildState registryAB).transforms =
      (sortByPriority (registryAB.plugins.map Prod.snd)).flatMap
        (fun p => p.nodeTransforms) :=
  c6_priority_merge registryAB "video" pluginA pluginB 2
    (by decide) (by decide) (by decide) (by decide)

/-! ## Claim C3 -/

/-- Kind-sensitive adjacency check against the last element of a list. -/
def lastKindOkB (l : List HtmlNode) (a : HtmlNode) : Bool :=
  match l.getLast? with
  | some b => !(isTextNode b && isTextNode a)
  | none => true

theorem noAdj_cons_eq (a : HtmlNode) (l : List HtmlNode) :
    noAdjacentTextB (a :: l) =
      ((match l.head? with
        | some b => !(isTextNode a && isTextNode b)
        | none => true) && noAdjacentTextB l) := by
  cases a <;> rcases l with - | ⟨b, rest⟩ <;> first | rfl | (cases b <;> rfl)

theorem noAdj_append_one (l : List HtmlNode) (a : HtmlNode) :
    noAdjacentTextB (l ++ [a]) = (noAdjacentTextB l && lastKindOkB l a) := by
  induction l with
  | nil =>
    cases a <;> rfl
  | cons x l ih =>
    rw [List.cons_append, noAdj_cons_eq, noAdj_cons_eq x l, ih]
    rcases l with - | ⟨y, m⟩
    · cases x <;> cases a <;> rfl
    · show (_ && (_ && _)) = ((_ && _) && _)
      have hlast : lastKindOkB (x :: y :: m) a = lastKindOkB (y :: m) a := by
        unfold lastKindOkB
        rw [List.getLast?_cons_cons]
      rw [hlast]
      simp [Bool.and_assoc]

theorem noAdj_reverse (l : List HtmlNode) :
    noAdjacentTextB l.reverse = noAdjacentTextB l := by
  induction l with
  | nil => rfl
  | cons x l ih =>
    rw [List.reverse_cons, noAdj_append_one, ih, noAdj_cons_eq]
    have h : lastKindOkB l.reverse x =
        (match l.head? with
         | some b => !(isTextNode x && isTextNode b)
         | none => true) := by
      unfold lastKindOkB
      rw [List.getLast?_reverse]
      rcases l with - | ⟨y, m⟩
      · rfl
      · dsimp only [List.head?]
        rw [Bool.and_comm]
    rw [h, Bool.and_comm]

theorem mergeStep_noAdj (racc : List HtmlNode) (n : HtmlNode)
    (h : noAdjacentTextB racc = true) :
    noAdjacentTextB (mergeStep racc n) = true := by
  rcases n with ⟨a, k, c, p⟩ | ⟨a, k, t, attrs, cls, ps, ch, par⟩ <;>
    rcases racc with - | ⟨m, rest⟩
  · rfl
  · rcases m with ⟨a0, k0, c0, p0⟩ | m'
    · show noAdjacentTextB (.text a0 k0 (c0 ++ c) p0 :: rest) = true
      rw [noAdj_cons_eq] at h ⊢
      exact h
    · show noAdjacentTextB (.text a k c p :: .element .. :: rest) = true
      rw [noAdj_cons_eq]
      simpa [isTextNode] using h
  · rfl
  · show noAdjacentTextB (.element .. :: m :: rest) = true
    rw [noAdj_cons_eq]
    simpa [isTextNode] using h

theorem foldl_mergeStep_noAdj (L racc : List HtmlNode)
    (h : noAdjacentTextB racc = true) :
    noAdjacentTextB (L.foldl mergeStep racc) = true := by
  induction L generalizing racc with
  | nil => exact h
  | cons n L ih => exact ih _ (mergeStep_noAdj racc n h)

theorem mergeAdjacentText_noAdj (L : List HtmlNode) :
    noAdjacentTextB (mergeAdjacentText L) = true := by
  unfold mergeAdjacentText
  rw [noAdj_reverse]
  exact foldl_mergeStep_noAdj L [] rfl

theorem dropWhile_head_false (p : Char → Bool) (cs : List Char) (c0 : Char)
    (rest : List Char) (h : cs.dropWhile p = c0 :: rest) : p c0 = false := by
  induction cs with
  | nil => simp at h
  | cons c cs ih =>
    rw [List.dropWhile_cons] at h
    by_cases hp : p c
    · rw [if_pos hp] at h
      exact ih h
    · rw [if_neg hp] at h
      cases h
      exact Bool.of_not_eq_true hp

theorem mk_ne_empty_iff (l : List Char) : String.mk l ≠ "" ↔ l ≠ [] := by
  constructor
  · intro h he
    apply h
    rw [he]
  · intro h he
    exact h (by simpa using congrArg String.data he)

theorem trimStart_not_blank (c : String) (h : jsTrimStart c ≠ "") :
    isWhitespaceOnly (jsTrimStart c) = false := by
  unfold jsTrimStart at h ⊢
  unfold isWhitespaceOnly
  rcases hd : c.data.dropWhile isWsChar with - | ⟨c0, rest⟩
  · exact absurd hd ((mk_ne_empty_iff _).mp h)
  · show (c0 :: rest).all isWsChar = false
    rw [List.all_cons, dropWhile_head_false isWsChar c.data c0 rest hd]
    rfl

theorem trimEnd_not_blank (c : String) (h : jsTrimEnd c ≠ "") :
    isWhitespaceOnly (jsTrimEnd c) = false := by
  unfold jsTrimEnd at h ⊢
  unfold isWhitespaceOnly
  rcases hd : c.data.reverse.dropWhile isWsChar with - | ⟨c0, rest⟩
  · rw [hd] at h
    exact absurd rfl ((mk_ne_empty_iff _).mp h)
  · show ((c0 :: rest).reverse).all isWsChar = false
    rw [List.all_reverse, List.all_cons,
      dropWhile_head_false isWsChar c.data.reverse c0 rest hd]
    rfl

theorem trimFirst_noAdj (l : List HtmlNode) (h : noAdjacentTextB l = true) :
    noAdjacentTextB (trimFirst l) = true := by
  unfold trimFirst
  rcases l with - | ⟨n, rest⟩
  · exact h
  · rcases n with ⟨a, k, c, p⟩ | e
    · dsimp only
      by_cases hc : jsTrimStart c = ""
      · rw [if_pos hc]
        rw [noAdj_cons_eq, Bool.and_eq_true] at h
        exact h.2
      · rw [if_neg hc]
        rw [noAdj_cons_eq] at h ⊢
        exact h
    · exact h

theorem headContentOk_trimFirst (l : List HtmlNode)
    (h : noAdjacentTextB l = true) :
    headContentOkB (trimFirst l) = true := by
  unfold trimFirst
  rcases l with - | ⟨n, rest⟩
  · rfl
  · rcases n with ⟨a, k, c, p⟩ | ⟨a, k, t, attrs, cls, ps, ch, par⟩
    · dsimp only
      by_cases hc : jsTrimStart c = ""
      · rw [if_pos hc]
        unfold headContentOkB
        rcases rest with - | ⟨m, rest'⟩
        · rfl
        · rcases m with ⟨a', k', c', p'⟩ | e'
          · rw [noAdj_cons_eq] at h
            simp [isTextNode, List.head?] at h
          · rfl
      · rw [if_neg hc]
        unfold headContentOkB
        dsimp only [List.head?]
        rw [trimStart_not_blank c hc]
        rfl
    · rfl

theorem trimLast_noAdj (l : List HtmlNode) (h : noAdjacentTextB l = true) :
    noAdjacentTextB (trimLast l) = true := by
  unfold trimLast
  rcases hl : l.getLast? with - | b
  · exact h
  · rcases b with ⟨a, k, c, p⟩ | e
    · obtain ⟨m, rfl⟩ := List.getLast?_eq_some_iff.mp hl
      dsimp only
      rw [List.dropLast_concat]
      rw [noAdj_append_one, Bool.and_eq_true] at h
      by_cases hc : jsTrimEnd c = ""
      · rw [if_pos hc]
        exact h.1
      · rw [if_neg hc, noAdj_append_one]
        have hk : lastKindOkB m (.text a k (jsTrimEnd c) p) =
            lastKindOkB m (.text a k c p) := by
          unfold lastKindOkB
          cases m.getLast? <;> rfl
        rw [hk, Bool.and_eq_true]
        exact h
    · exact h

theorem headContentOk_trimLast (l : List HtmlNode)
    (h : headContentOkB l = true) :
    headContentOkB (trimLast l) = true := by
  unfold trimLast
  rcases hl : l.getLast? with - | b
  · exact h
  · rcases b with ⟨a, k, c, p⟩ | e
    · obtain ⟨m, rfl⟩ := List.getLast?_eq_some_iff.mp hl
      dsimp only
      rw [List.dropLast_concat]
      by_cases hc : jsTrimEnd c = ""
      · rw [if_pos hc]
        rcases m with - | ⟨x, m'⟩
        · rfl
        · unfold headContentOkB at h ⊢
          rw [List.cons_append] at h
          exact h
      · rw [if_neg hc]
        rcases m with - | ⟨x, m'⟩
        · unfold headContentOkB
          dsimp only [List.nil_append, List.head?]
          rw [trimEnd_not_blank c hc]
          rfl
        · unfold headContentOkB at h ⊢
          rw [List.cons_append] at h ⊢
          exact h
    · exact h

theorem lastContentOk_trimLast (l : List HtmlNode)
    (h : noAdjacentTextB l = true) :
    lastContentOkB (trimLast l) = true := by
  unfold trimLast
  rcases hl : l.getLast? with - | b
  · unfold lastContentOkB
    rw [hl]
  · rcases b with ⟨a, k, c, p⟩ | ⟨a, k, t, attrs, cls, ps, ch, par⟩
    · obtain ⟨m, rfl⟩ := List.getLast?_eq_some_iff.mp hl
      dsimp only
      rw [List.dropLast_concat]
      by_cases hc : jsTrimEnd c = ""
      · rw [if_pos hc]
        rw [noAdj_append_one, Bool.and_eq_true] at h
        unfold lastContentOkB
        rcases hm : m.getLast? with - | b'
        · rfl
        · rcases b' with ⟨a', k', c', p'⟩ | e'
          · have := h.2
            unfold lastKindOkB at this
            rw [hm] at this
            simp [isTextNode] at this
          · rfl
      · rw [if_neg hc]
        unfold lastContentOkB
        rw [List.getLast?_concat]
        dsimp only
        rw [trimEnd_not_blank c hc]
        rfl
    · unfold lastContentOkB
      rw [hl]

theorem trimBoundary_clean (l : List HtmlNode)
    (h : noAdjacentTextB l = true) :
    noAdjacentTextB (trimBoundary l) = true ∧
    boundaryOkB (trimBoundary l) = true := by
  unfold trimBoundary boundaryOkB
  have h1 := trimFirst_noAdj l h
  refine ⟨trimLast_noAdj _ h1, ?_⟩
  rw [Bool.and_eq_true]
  exact ⟨headContentOk_trimLast _ (headContentOk_trimFirst l h),
    lastContentOk_trimLast _ h1⟩

theorem cleanEachB_eq_all (l : List HtmlNode) :
    cleanEachB l = l.all cleanNodeB := by
  induction l with
  | nil => unfold cleanEachB; rfl
  | cons n rest ih =>
    unfold cleanEachB
    rw [List.all_cons, ← ih]

theorem mem_mergeStep (racc : List HtmlNode) (m x : HtmlNode)
    (h : x ∈ mergeStep racc m) :
    isTextNode x = true ∨ x ∈ racc ∨ x = m := by
  rcases m with ⟨a, k, c, p⟩ | e <;> rcases racc with - | ⟨h0, rest⟩
  · right; right
    simpa [mergeStep] using h
  · rcases h0 with ⟨a0, k0, c0, p0⟩ | e0
    · rcases List.mem_cons.mp h with h1 | h1
      · left; rw [h1]; rfl
      · right; left; exact List.mem_cons_of_mem _ h1
    · rcases List.mem_cons.mp h with h1 | h1
      · right; right; exact h1
      · right; left; exact h1
  · right; right
    simpa [mergeStep] using h
  · rcases List.mem_cons.mp h with h1 | h1
    · right; right; exact h1
    · right; left; exact h1

theorem mem_foldl_mergeStep (L racc : List HtmlNode) (x : HtmlNode)
    (h : x ∈ L.foldl mergeStep racc) :
    isTextNode x = true ∨ x ∈ racc ∨ x ∈ L := by
  induction L generalizing racc with
  | nil => exact Or.inr (Or.inl h)
  | cons n L ih =>
    rcases ih (mergeStep racc n) h with h1 | h1 | h1
    · exact Or.inl h1
    · rcases mem_mergeStep racc n x h1 with h2 | h2 | h2
      · exact Or.inl h2
      · exact Or.inr (Or.inl h2)
      · exact Or.inr (Or.inr (h2 ▸ List.mem_cons_self _ _))
    · exact Or.inr (Or.inr (List.mem_cons_of_mem _ h1))

theorem mem_mergeAdjacentText (L : List HtmlNode) (x : HtmlNode)
    (h : x ∈ mergeAdjacentText L) : isTextNode x = true ∨ x ∈ L := by
  unfold mergeAdjacentText at h
  rcases mem_foldl_mergeStep L [] x (List.mem_reverse.mp h) with h1 | h1 | h1
  · exact Or.inl h1
  · simp at h1
  · exact Or.inr h1

theorem mem_trimFirst (l : List HtmlNode) (x : HtmlNode)
    (h : x ∈ trimFirst l) : isTextNode x = true ∨ x ∈ l := by
  unfold trimFirst at h
  rcases l with - | ⟨n, rest⟩
  · exact Or.inr h
  · rcases n with ⟨a, k, c, p⟩ | e
    · dsimp only at h
      by_cases hc : jsTrimStart c = ""
      · rw [if_pos hc] at h
        exact Or.inr (List.mem_cons_of_mem _ h)
      · rw [if_neg hc] at h
        rcases List.mem_cons.mp h with h1 | h1
        · left; rw [h1]; rfl
        · exact Or.inr (List.mem_cons_of_mem _ h1)
    · exact Or.inr h

theorem mem_trimLast (l : List HtmlNode) (x : HtmlNode)
    (h : x ∈ trimLast l) : isTextNode x = true ∨ x ∈ l := by
  unfold trimLast at h
  rcases hl : l.getLast? with - | b
  · rw [hl] at h
    exact Or.inr h
  · rw [hl] at h
    rcases b with ⟨a, k, c, p⟩ | e
    · obtain ⟨m, rfl⟩ := List.getLast?_eq_some_iff.mp hl
      dsimp only at h
      rw [List.dropLast_concat] at h
      by_cases hc : jsTrimEnd c = ""
      · rw [if_pos hc] at h
        exact Or.inr (List.mem_append_left _ h)
      · rw [if_neg hc] at h
        rcases List.mem_append.mp h with h1 | h1
        · exact Or.inr (List.mem_append_left _ h1)
        · left; rw [List.mem_singleton.mp h1]; rfl
    · exact Or.inr h

theorem mem_postProcessEach (l : List HtmlNode) (x : HtmlNode)
    (h : x ∈ postProcessEach l) : ∃ m ∈ l, x = postProcessNode m := by
  induction l with
  | nil => simp [postProcessEach] at h
  | cons n rest ih =>
    unfold postProcessEach at h
    rcases List.mem_cons.mp h with h1 | h1
    · exact ⟨n, List.mem_cons_self _ _, h1⟩
    · obtain ⟨m, hm, he⟩ := ih h1
      exact ⟨m, List.mem_cons_of_mem _ hm, he⟩

theorem postProcess_clean (N : Nat) :
    ∀ l : List HtmlNode, sizeOf l ≤ N →
      cleanForestB (postProcess l) = true := by
  induction N with
  | zero =>
    intro l hl
    have h1 : 1 ≤ sizeOf l := by cases l <;> simp_arith
    omega
  | succ N ih =>
    intro l hl
    have hpp : postProcess l =
        trimBoundary (mergeAdjacentText (postProcessEach l)) := by
      rw [postProcess]
    have hna := mergeAdjacentText_noAdj (postProcessEach l)
    have hclean := trimBoundary_clean _ hna
    unfold cleanForestB
    rw [hpp, Bool.and_eq_true, Bool.and_eq_true]
    refine ⟨⟨hclean.1, hclean.2⟩, ?_⟩
    rw [cleanEachB_eq_all, List.all_eq_true]
    intro x hx
    have hsrc : isTextNode x = true ∨ x ∈ postProcessEach l := by
      rcases mem_trimLast _ _ (by simpa [trimBoundary] using hx) with h1 | h1
      · exact Or.inl h1
      · rcases mem_trimFirst _ _ h1 with h2 | h2
        · exact Or.inl h2
        · exact mem_mergeAdjacentText _ _ h2
    rcases hsrc with h1 | h1
    · rcases x with ⟨a, k, c, p⟩ | ⟨a, k, t, attrs, cls, ps, ch, par⟩
      · unfold cleanNodeB
        rfl
      · simp [isTextNode] at h1
    · obtain ⟨m, hm, rfl⟩ := mem_postProcessEach l x h1
      rcases m with ⟨a, k, c, p⟩ | ⟨a, k, t, attrs, cls, ps, ch, par⟩
      · unfold postProcessNode cleanNodeB
        rfl
      · unfold postProcessNode cleanNodeB
        apply ih
        have hmem := List.sizeOf_lt_of_mem hm
        have hch : sizeOf ch <
            sizeOf (HtmlNode.element a k t attrs cls ps ch par) := by
          simp_arith
        omega

/-- C3 (amended): for every tokenizer outcome and every parser options value
*with whitespace normalization enabled* (the default), no children array in
the tree returned by `parseHtml` — the top level included — contains two
consecutive text nodes, and no children array's first or last entry is a
text node whose content is empty after trimming. With
`normalizeWhitespace: false` the post-processing pass is skipped entirely
and the invariant fails (see the counterexample). -/
theorem c3_text_invariants (input : TokenizerOutcome) (opts : ParserOptions)
    (ctr : Nat) (hn : opts.normalizeWhitespace = true) :
    cleanForestB (parseHtml input opts ctr).nodes = true := by
  rcases input with e | dom
  · show cleanForestB [] = true
    decide
  · show cleanForestB
      (if opts.normalizeWhitespace then
        postProcess (convertChildren dom none opts ctr).1
       else (convertChildren dom none opts ctr).1) = true
    rw [hn]
    simp only [if_true, ite_true]
    exact postProcess_clean
      (sizeOf (convertChildren dom none opts ctr).1) _ le_rfl

/-- Witness for C3 at a concrete document with messy whitespace under the
default options. -/
theorem c3_text_invariants_witness :
    cleanForestB (parseHtml
      (.ok [.tag "div" [] [.text " x ", .comment "c", .text "y "]])
      defaultParserOptions 0).nodes = true :=
  c3_text_invariants
    (.ok [.tag "div" [] [.text " x ", .comment "c", .text "y "]])
    defaultParserOptions 0 (by decide)

/-- Counterexample to C3 as stated: with `normalizeWhitespace: false`
(a legal parser-options value) the post-processing pass is skipped, so
dropping the comment in `<div>x<!--c-->y</div>` leaves two consecutive text
nodes in the `div`'s children array. -/
theorem c3_counterexample :
    cleanForestB (parseHtml
      (.ok [.tag "div" [] [.text "x", .comment "c", .text "y"]])
      { defaultParserOptions with normalizeWhitespace := false } 0).nodes
      = false := by
  decide

/-! ## Claim C2 -/

mutual

/-- Parent-correctness of a subtree: the node's `parent` field holds
exactly the address of its enclosing parent (`pa`), and every child's
parent field holds this node's address, recursively. -/
def goodNodeB (pa : Option Nat) : HtmlNode → Bool
  | .text _ _ _ p => p == pa
  | .element a _ _ _ _ _ ch p => (p == pa) && goodEachB (some a) ch

def goodEachB (pa : Option Nat) : List HtmlNode → Bool
  | [] => true
  | n :: rest => goodNodeB pa n && goodEachB pa rest

end

theorem goodEachB_eq_all (pa : Option Nat) (l : List HtmlNode) :
    goodEachB pa l = l.all (goodNodeB pa) := by
  induction l with
  | nil => unfold goodEachB; rfl
  | cons n rest ih =>
    unfold goodEachB
    rw [List.all_cons, ← ih]

theorem mergeStep_good (pa : Option Nat) (racc : List HtmlNode)
    (n : HtmlNode) (hr : racc.all (goodNodeB pa) = true)
    (hn : goodNodeB pa n = true) :
    (mergeStep racc n).all (goodNodeB pa) = true := by
  rcases n with ⟨a, k, c, p⟩ | ⟨a, k, t, attrs, cls, ps, ch, par⟩ <;>
    rcases racc with - | ⟨h0, rest⟩
  · simpa [mergeStep] using hn
  · rcases h0 with ⟨a0, k0, c0, p0⟩ | e0
    · show ((HtmlNode.text a0 k0 (c0 ++ c) p0) :: rest).all (goodNodeB pa)
        = true
      rw [List.all_cons] at hr ⊢
      exact hr
    · show (HtmlNode.text a k c p :: HtmlNode.element .. :: rest).all
        (goodNodeB pa) = true
      rw [List.all_cons, hn, List.all_cons] at *
      simpa using hr
  · simpa [mergeStep] using hn
  · show (HtmlNode.element a k t attrs cls ps ch par :: h0 :: rest).all
      (goodNodeB pa) = true
    rw [List.all_cons, hn]
    simpa using hr

theorem foldl_mergeStep_good (pa : Option Nat) (L racc : List HtmlNode)
    (hr : racc.all (goodNodeB pa) = true)
    (hL : L.all (goodNodeB pa) = true) :
    (L.foldl mergeStep racc).all (goodNodeB pa) = true := by
  induction L generalizing racc with
  | nil => exact hr
  | cons n L ih =>
    rw [List.all_cons, Bool.and_eq_true] at hL
    exact ih _ (mergeStep_good pa racc n hr hL.1) hL.2

theorem mergeAdjacentText_good (pa : Option Nat) (L : List HtmlNode)
    (hL : L.all (goodNodeB pa) = true) :
    (mergeAdjacentText L).all (goodNodeB pa) = true := by
  unfold mergeAdjacentText
  rw [List.all_reverse]
  exact foldl_mergeStep_good pa L [] rfl hL

theorem trimFirst_good (pa : Option Nat) (l : List HtmlNode)
    (h : l.all (goodNodeB pa) = true) :
    (trimFirst l).all (goodNodeB pa) = true := by
  unfold trimFirst
  rcases l with - | ⟨n, rest⟩
  · exact h
  · rcases n with ⟨a, k, c, p⟩ | e
    · dsimp only
      rw [List.all_cons, Bool.and_eq_true] at h
      by_cases hc : jsTrimStart c = ""
      · rw [if_pos hc]
        exact h.2
      · rw [if_neg hc, List.all_cons]
        have : goodNodeB pa (.text a k (jsTrimStart c) p) =
            goodNodeB pa (.text a k c p) := by
          unfold goodNodeB
          rfl
        rw [this, h.1]
        simpa using h.2
    · exact h

theorem trimLast_good (pa : Option Nat) (l : List HtmlNode)
    (h : l.all (goodNodeB pa) = true) :
    (trimLast l).all (goodNodeB pa) = true := by
  unfold trimLast
  rcases hl : l.getLast? with - | b
  · exact h
  · rcases b with ⟨a, k, c, p⟩ | e
    · obtain ⟨m, rfl⟩ := List.getLast?_eq_some_iff.mp hl
      dsimp only
      rw [List.dropLast_concat]
      rw [List.all_append] at h
      rw [Bool.and_eq_true] at h
      by_cases hc : jsTrimEnd c = ""
      · rw [if_pos hc]
        exact h.1
      · rw [if_neg hc, List.all_append, h.1]
        have : goodNodeB pa (.text a k (jsTrimEnd c) p) =
            goodNodeB pa (.text a k c p) := by
          unfold goodNodeB
          rfl
        simp only [List.all_cons, List.all_nil, Bool.and_true, this]
        simpa using h.2
    · exact h

theorem postProcess_good (N : Nat) :
    ∀ (l : List HtmlNode) (pa : Option Nat), sizeOf l ≤ N →
      goodEachB pa l = true → goodEachB pa (postProcess l) = true := by
  induction N with
  | zero =>
    intro l pa hl
    have h1 : 1 ≤ sizeOf l := by cases l <;> simp_arith
    omega
  | succ N ih =>
    intro l pa hl hg
    rw [goodEachB_eq_all] at hg ⊢
    show ((trimLast (trimFirst
      (mergeAdjacentText (postProcessEach l)))).all (goodNodeB pa)) = true
    apply trimLast_good
    apply trimFirst_good
    apply mergeAdjacentText_good
    rw [List.all_eq_true] at hg ⊢
    intro x hx
    obtain ⟨m, hm, rfl⟩ := mem_postProcessEach l x hx
    have hmg := hg m hm
    rcases m with ⟨a, k, c, p⟩ | ⟨a, k, t, attrs, cls, ps, ch, par⟩
    · exact hmg
    · unfold postProcessNode
      unfold goodNodeB at hmg ⊢
      rw [Bool.and_eq_true] at hmg
      rw [hmg.1]
      have hch : goodEachB (some a) (postProcess ch) = true := by
        apply ih
        · have hmem := List.sizeOf_lt_of_mem hm
          have hsz : sizeOf ch <
              sizeOf (HtmlNode.element a k t attrs cls ps ch par) := by
            simp_arith
          omega
        · exact hmg.2
      simpa using hch

theorem convert_good (N : Nat) :
    (∀ (d : DomNode) (parent : Option Nat) (opts : ParserOptions)
      (ctr : Nat), sizeOf d ≤ N → ∀ n,
        (convertNode d parent opts ctr).1 = some n →
        goodNodeB parent n = true) ∧
    (∀ (ds : List DomNode) (parent : Option Nat) (opts : ParserOptions)
      (ctr : Nat), sizeOf ds ≤ N →
        goodEachB parent (convertChildren ds parent opts ctr).1 = true) := by
  induction N with
  | zero =>
    constructor
    · intro d parent opts ctr hd
      have : 1 ≤ sizeOf d := by cases d <;> simp_arith
      omega
    · intro ds parent opts ctr hds
      have : 1 ≤ sizeOf ds := by cases ds <;> simp_arith
      omega
  | succ N ih =>
    constructor
    · intro d parent opts ctr hd n hn
      rcases d with ⟨data⟩ | ⟨name, attribs, domChildren⟩ | ⟨data⟩
      · unfold convertNode at hn
        dsimp only at hn
        by_cases hw : (isWhitespaceOnly
            (if opts.normalizeWhitespace then normalizeText data else data)
            && opts.normalizeWhitespace) = true
        · rw [if_pos hw] at hn
          simp at hn
        · rw [if_neg hw] at hn
          simp only [Option.some.injEq] at hn
          rw [← hn]
          unfold goodNodeB
          simp
      · unfold convertNode at hn
        dsimp only at hn
        by_cases hs : (jsToLower name = "script" ∨ jsToLower name = "style")
        · rw [if_pos (by simpa using hs)] at hn
          simp at hn
        · rw [if_neg (by simpa using hs)] at hn
          simp only [Option.some.injEq] at hn
          rw [← hn]
          unfold goodNodeB
          rw [Bool.and_eq_true]
          refine ⟨by simp, ?_⟩
          apply ih.2
          have : sizeOf domChildren <
              sizeOf (DomNode.tag name attribs domChildren) := by
            simp_arith
          omega
      · unfold convertNode at hn
        simp at hn
    · intro ds parent opts ctr hds
      rcases ds with - | ⟨d, rest⟩
      · unfold convertChildren
        unfold goodEachB
        rfl
      · unfold convertChildren
        dsimp only
        have hd : sizeOf d ≤ N := by
          have : sizeOf d < sizeOf (d :: rest) := by simp_arith
          omega
        have hrest : sizeOf rest ≤ N := by
          have : sizeOf rest < sizeOf (d :: rest) := by simp_arith
          omega
        rcases hc : (convertNode d parent opts ctr).1 with - | conv
        · exact ih.2 rest parent opts _ hrest
        · unfold goodEachB
          rw [Bool.and_eq_true]
          exact ⟨ih.1 d parent opts ctr hd conv hc,
            ih.2 rest parent opts _ hrest⟩

theorem flattenNode_eq (m : HtmlNode) :
    flattenNode m = m :: flattenForest (nodeChildren m) := by
  rcases m with ⟨a, k, c, p⟩ | ⟨a, k, t, attrs, cls, ps, ch, par⟩
  · unfold flattenNode nodeChildren
    unfold flattenForest
    rfl
  · unfold flattenNode nodeChildren
    rfl

theorem mem_flattenForest_iff (l : List HtmlNode) (n : HtmlNode) :
    n ∈ flattenForest l ↔ ∃ c ∈ l, n ∈ flattenNode c := by
  induction l with
  | nil =>
    unfold flattenForest
    simp
  | cons c rest ih =>
    unfold flattenForest
    rw [List.mem_append, ih]
    constructor
    · rintro (h | ⟨c0, hc0, hn⟩)
      · exact ⟨c, List.mem_cons_self _ _, h⟩
      · exact ⟨c0, List.mem_cons_of_mem _ hc0, hn⟩
    · rintro ⟨c0, hc0, hn⟩
      rcases List.mem_cons.mp hc0 with rfl | h1
      · exact Or.inl hn
      · exact Or.inr ⟨c0, h1, hn⟩

theorem self_mem_flattenNode (m : HtmlNode) : m ∈ flattenNode m := by
  rw [flattenNode_eq]
  exact List.mem_cons_self _ _

theorem good_flatten (N : Nat) :
    ∀ (m : HtmlNode) (pa : Option Nat), sizeOf m ≤ N →
      goodNodeB pa m = true → ∀ n ∈ flattenNode m,
        (n = m ∧ nodeParent n = pa) ∨
        ∃ e ∈ flattenNode m, nodeParent n = some (nodeAddr e) ∧
          ∃ c ∈ nodeChildren e, nodeAddr c = nodeAddr n := by
  induction N with
  | zero =>
    intro m pa hm
    have : 1 ≤ sizeOf m := by cases m <;> simp_arith
    omega
  | succ N ih =>
    intro m pa hm hg n hn
    rw [flattenNode_eq] at hn
    rcases List.mem_cons.mp hn with rfl | h1
    · left
      constructor
      · rfl
      · rcases n with ⟨a, k, c, p⟩ | ⟨a, k, t, attrs, cls, ps, ch, par⟩
        · unfold goodNodeB at hg
          exact eq_of_beq hg
        · unfold goodNodeB at hg
          rw [Bool.and_eq_true] at hg
          exact eq_of_beq hg.1
    · rcases m with ⟨a, k, c, p⟩ | ⟨a, k, t, attrs, cls, ps, ch, par⟩
      · unfold nodeChildren at h1
        unfold flattenForest at h1
        simp at h1
      · unfold nodeChildren at h1
        obtain ⟨c0, hc0, hnc0⟩ := (mem_flattenForest_iff ch n).mp h1
        unfold goodNodeB at hg
        rw [Bool.and_eq_true] at hg
        have hg0 : goodNodeB (some a) c0 = true := by
          have := hg.2
          rw [goodEachB_eq_all, List.all_eq_true] at this
          exact this c0 hc0
        have hs0 : sizeOf c0 ≤ N := by
          have h2 : sizeOf c0 < sizeOf ch := List.sizeOf_lt_of_mem hc0
          have h3 : sizeOf ch <
              sizeOf (HtmlNode.element a k t attrs cls ps ch par) := by
            simp_arith
          omega
        rcases ih c0 (some a) hs0 hg0 n hnc0 with ⟨hne, hp⟩ | ⟨e, he, hp, hc⟩
        · right
          refine ⟨.element a k t attrs cls ps ch par,
            self_mem_flattenNode _, ?_, c0, hc0, by rw [hne]⟩
          rw [hp]
          rfl
        · right
          refine ⟨e, ?_, hp, hc⟩
          rw [flattenNode_eq]
          apply List.mem_cons_of_mem
          unfold nodeChildren
          exact (mem_flattenForest_iff ch e).mpr ⟨c0, hc0, he⟩

theorem good_consistent (roots : List HtmlNode)
    (h : goodEachB none roots = true) : parentConsistentB roots = true := by
  unfold parentConsistentB
  rw [List.all_eq_true]
  intro n hn
  obtain ⟨r, hr, hnr⟩ := (mem_flattenForest_iff roots n).mp hn
  have hgr : goodNodeB none r = true := by
    rw [goodEachB_eq_all, List.all_eq_true] at h
    exact h r hr
  rcases good_flatten (sizeOf r) r none le_rfl hgr n hnr with
    ⟨rfl, hp⟩ | ⟨e, he, hp, c, hc, hac⟩
  · rw [hp]
  · rw [hp]
    dsimp only
    rw [List.any_eq_true]
    refine ⟨e, (mem_flattenForest_iff roots e).mpr ⟨r, hr, he⟩, ?_⟩
    rw [Bool.and_eq_true]
    constructor
    · simp
    · rw [List.any_eq_true]
      exact ⟨c, hc, by simp [hac]⟩

/-- C2 (amended): every tree produced by `parseHtml` is parent-consistent —
every node whose `parent` reference is present appears, by object identity,
in that parent's children array. The tree returned by `resolveTreeStyles`
does *not* preserve this: the element copies (and the text nodes, which are
returned by reference) keep `parent` references that point at the nodes of
the *input* tree, so the returned tree contains dangling parent
back-references (see the counterexample). -/
theorem c2_parent_consistency (input : TokenizerOutcome)
    (opts : ParserOptions) (ctr : Nat) :
    parentConsistentB (parseHtml input opts ctr).nodes = true := by
  rcases input with e | dom
  · show parentConsistentB [] = true
    decide
  · show parentConsistentB
      (if opts.normalizeWhitespace then
        postProcess (convertChildren dom none opts ctr).1
       else (convertChildren dom none opts ctr).1) = true
    have hconv : goodEachB none (convertChildren dom none opts ctr).1
        = true :=
      (convert_good (sizeOf dom)).2 dom none opts ctr le_rfl
    by_cases hw : opts.normalizeWhitespace = true
    · rw [if_pos hw]
      exact good_consistent _ (postProcess_good
        (sizeOf (convertChildren dom none opts ctr).1) _ none le_rfl hconv)
    · rw [if_neg hw]
      exact good_consistent _ hconv

/-- Counterexample to C2 as stated: resolving styles over the parse of
`<div>x</div>` returns a copied `div` (fresh object) whose text child still
carries a `parent` reference to the *original* `div`; no node of the
returned tree with that address has the text child among its children, so
the copy violates parent-consistency. -/
theorem c2_counterexample :
    parentConsistentB (resolveTreeStyles {}
      (parseHtml (.ok [.tag "div" [] [.text "x"]])
        defaultParserOptions 0).nodes 100) = false := by
  decide

end HtmlRenderer
